import Mathlib

/-!
Verification development for the Options_Trading repository.

Shallow embedding of the position/order lifecycle core:
- `src/core/api_circuit_breaker.py` (`APICircuitBreaker`)
- `src/utils/pnl_logger.py` (`PnlLogger`)
- `src/core/market_data_worker.py` (`MarketDataWorker`)
- `src/core/paper_trading_manager.py` (`PaperTradingManager`)
- `src/core/position_manager.py` (`PositionManager`) with `src/utils/data_models.py`

Conventions:
- Python floats are modelled as `ℚ` (no claim here depends on IEEE rounding).
- Wall-clock timestamps (`datetime.now()`) are passed explicitly as `Nat`
  seconds.
- Broker/transport calls and Qt signal emissions are recorded in an explicit
  event trace (`Event`, `WsCall`); fallible broker calls take their outcome
  from an explicit `Trader` oracle, standing for the duck-typed
  KiteConnect/PaperTradingManager execution interface.
- Python dictionaries that the code iterates in insertion order are modelled
  as association lists (`List (key × value)`).
- Python truthiness tests on optional strings / floats are modelled by
  `truthyId` / `truthyQ` (`None`, `""` and `0.0` are falsy).
-/

set_option maxHeartbeats 1000000

namespace OptionsTrading

/-! ## Circuit breaker (`src/core/api_circuit_breaker.py`)

States CLOSED / OPEN / HALF_OPEN are the string constants of the source. -/

inductive CBState where
  | closed
  | opened
  | halfOpen
deriving DecidableEq, Repr

structure APICircuitBreaker where
  failure_threshold : Nat
  timeout_seconds : Nat
  failure_count : Nat
  last_failure_time : Option Nat
  state : CBState
deriving DecidableEq, Repr

/-- `APICircuitBreaker.__init__`. -/
def APICircuitBreaker.init (failure_threshold timeout_seconds : Nat) : APICircuitBreaker :=
  { failure_threshold := failure_threshold
    timeout_seconds := timeout_seconds
    failure_count := 0
    last_failure_time := none
    state := .closed }

/-- `APICircuitBreaker._should_attempt_reset`, with `datetime.now()` passed as `now`. -/
def shouldAttemptReset (cb : APICircuitBreaker) (now : Nat) : Bool :=
  match cb.last_failure_time with
  | none => true
  | some t => decide (t + cb.timeout_seconds ≤ now)

/-- `APICircuitBreaker.can_execute`; returns the result together with the
(possibly mutated) breaker, since the OPEN branch writes `self.state`. -/
def canExecute (cb : APICircuitBreaker) (now : Nat) : Bool × APICircuitBreaker :=
  match cb.state with
  | .closed => (true, cb)
  | .opened =>
      if shouldAttemptReset cb now then (true, { cb with state := .halfOpen })
      else (false, cb)
  | .halfOpen => (true, cb)

/-- `APICircuitBreaker.record_success`. -/
def recordSuccess (cb : APICircuitBreaker) : APICircuitBreaker :=
  { cb with failure_count := 0, state := .closed }

/-- `APICircuitBreaker.record_failure`, with `datetime.now()` passed as `now`. -/
def recordFailure (cb : APICircuitBreaker) (now : Nat) : APICircuitBreaker :=
  let cb' := { cb with failure_count := cb.failure_count + 1, last_failure_time := some now }
  if cb'.failure_threshold ≤ cb'.failure_count then { cb' with state := .opened } else cb'

/-! ## P&L logger (`src/utils/pnl_logger.py`)

The `realized_pnl` SQLite table (`date TEXT PRIMARY KEY, pnl REAL`) is
modelled as a partial map from the formatted `YYYY-MM-DD` date key to the
stored value. -/

def PnlDb : Type := String → Option ℚ

def emptyPnlDb : PnlDb := fun _ => none

/-- `PnlLogger.log_pnl`: `INSERT ... ON CONFLICT(date) DO UPDATE SET
pnl = pnl + excluded.pnl`.  `date_key` is the already-formatted date. -/
def logPnl (db : PnlDb) (date_key : String) (pnl_value : ℚ) : PnlDb :=
  fun d => if d = date_key then some ((db date_key).getD 0 + pnl_value) else db d

/-- `PnlLogger.get_pnl_for_date`: the stored value, `0.0` if no row exists. -/
def getPnlForDate (db : PnlDb) (date_key : String) : ℚ :=
  (db date_key).getD 0

/-- A sequence of `log_pnl` calls, oldest first. -/
def applyLogs (db : PnlDb) (logs : List (String × ℚ)) : PnlDb :=
  logs.foldl (fun acc l => logPnl acc l.1 l.2) db

lemma getPnlForDate_logPnl (db : PnlDb) (dk d : String) (v : ℚ) :
    getPnlForDate (logPnl db dk v) d =
      getPnlForDate db d + (if d = dk then v else 0) := by
  by_cases h : d = dk <;>
    simp [getPnlForDate, logPnl, h]

lemma applyLogs_get (logs : List (String × ℚ)) (db : PnlDb) (d : String) :
    getPnlForDate (applyLogs db logs) d =
      getPnlForDate db d + ((logs.filter (fun l => l.1 == d)).map Prod.snd).sum := by
  induction logs generalizing db with
  | nil => simp [applyLogs]
  | cons l ls ih =>
      have hstep : applyLogs db (l :: ls) = applyLogs (logPnl db l.1 l.2) ls := rfl
      rw [hstep, ih, List.filter_cons]
      by_cases h : l.1 = d
      · simp only [h, beq_self_eq_true, if_true, List.map_cons, List.sum_cons,
          getPnlForDate_logPnl, if_pos h.symm]
        ring
      · have hbeq : (l.1 == d) = false := beq_eq_false_iff_ne.mpr h
        have h' : ¬ d = l.1 := fun hc => h hc.symm
        simp [hbeq, getPnlForDate_logPnl, h']

/-! ## Streaming connection supervisor (`src/core/market_data_worker.py`)

Only the subscription-management state is modelled: whether `self.kws` is
initialized, whether the WebSocket reports connected, and the tracked
`subscribed_tokens` set.  Calls into the KiteTicker transport are recorded as
`WsCall` events; the outcome of each fallible `subscribe` try-block is an
explicit boolean oracle. -/

inductive WsCall where
  | subscribe (tokens : Finset Nat)
  | setMode (tokens : Finset Nat)
  | unsubscribe (tokens : Finset Nat)
deriving DecidableEq

structure MarketDataWorker where
  kwsInitialized : Bool
  kwsConnected : Bool
  subscribed_tokens : Finset Nat
deriving DecidableEq

/-- `MarketDataWorker.set_instruments(instrument_tokens, append)`.
`subscribeOk` is `false` when the `kws.subscribe`/`set_mode` try-block raises
(modelled as the first call raising, after which the method returns without
updating state); `unsubscribe` failures are logged and do not stop the state
update. -/
def setInstruments (w : MarketDataWorker) (instrument_tokens : Finset Nat) (append : Bool)
    (subscribeOk : Bool) : MarketDataWorker × List WsCall :=
  let tokensSet := if append then instrument_tokens ∪ w.subscribed_tokens else instrument_tokens
  if ¬ w.kwsInitialized then ({ w with subscribed_tokens := tokensSet }, [])
  else if ¬ w.kwsConnected then ({ w with subscribed_tokens := tokensSet }, [])
  else
    let newTokens := tokensSet
    let oldTokens := w.subscribed_tokens
    let tokensToAdd := newTokens \ oldTokens
    let tokensToRemove := if append then (∅ : Finset Nat) else oldTokens \ newTokens
    if tokensToAdd ≠ ∅ ∧ ¬ subscribeOk then
      (w, [WsCall.subscribe tokensToAdd])
    else
      let subCalls :=
        if tokensToAdd ≠ ∅ then [WsCall.subscribe tokensToAdd, WsCall.setMode tokensToAdd]
        else []
      let unsubCalls := if tokensToRemove ≠ ∅ then [WsCall.unsubscribe tokensToRemove] else []
      ({ w with subscribed_tokens := newTokens }, subCalls ++ unsubCalls)

/-- The subscription part of `MarketDataWorker._on_connect`: any queued
tokens are subscribed in full (failure to do so is logged and swallowed). -/
def onConnectSubscribe (w : MarketDataWorker) (subscribeOk : Bool) :
    MarketDataWorker × List WsCall :=
  let w' := { w with kwsConnected := true }
  if w'.subscribed_tokens ≠ ∅ then
    if subscribeOk then
      (w', [WsCall.subscribe w'.subscribed_tokens, WsCall.setMode w'.subscribed_tokens])
    else (w', [WsCall.subscribe w'.subscribed_tokens])
  else (w', [])

/-! ## Paper matching engine (`src/core/paper_trading_manager.py`) -/

structure PaperPosition where
  tradingsymbol : String
  quantity : Int
  average_price : ℚ
  exchange : String
  product : String
  pnl : ℚ
  last_price : ℚ
deriving DecidableEq, Repr

/-- A simulated order dict as built by `PaperTradingManager.place_order`.
The `pnl` key is only ever added by `_execute_trade` on a sell against an
existing position, so it is an `Option`. -/
structure PaperOrder where
  order_id : String
  tradingsymbol : String
  transaction_type : String
  quantity : Int
  price : Option ℚ
  order_type : String
  product : String
  exchange : String
  status : String
  average_price : ℚ
  filled_quantity : Int
  pnl : Option ℚ
deriving DecidableEq, Repr

structure PaperState where
  balance : ℚ
  positions : List (String × PaperPosition)
  market_data : List (Nat × Option ℚ)
  tradingsymbol_to_token : List (String × Nat)
deriving DecidableEq

/-- `self.market_data[token].get('last_price', 0.0)`-style lookup: `none` if
the token has no tick stored. -/
def lastKnownLtp (st : PaperState) (tradingsymbol : String) : Option ℚ :=
  match st.tradingsymbol_to_token.lookup tradingsymbol with
  | none => none
  | some tok =>
      match st.market_data.lookup tok with
      | none => none
      | some lp => some (lp.getD 0)

def updatePaperPos (positions : List (String × PaperPosition)) (sym : String)
    (p : PaperPosition) : List (String × PaperPosition) :=
  if positions.any (fun sp => sp.1 == sym) then
    positions.map (fun sp => if sp.1 == sym then (sp.1, p) else sp)
  else positions ++ [(sym, p)]

/-- `PaperTradingManager._execute_trade(order, price)`. -/
def executeTrade (st : PaperState) (order : PaperOrder) (price : ℚ) :
    PaperState × PaperOrder :=
  let price :=
    if price ≤ 0 then
      match lastKnownLtp st order.tradingsymbol with
      | some lastLtp => if 0 < lastLtp then lastLtp else price
      | none => price
    else price
  let symbol := order.tradingsymbol
  let quantity := order.quantity
  let isBuy := order.transaction_type == "BUY"
  let tradeValue := (quantity : ℚ) * price
  let posOpt := st.positions.lookup symbol
  let (st, order) :=
    if isBuy then
      let st := { st with balance := st.balance - tradeValue }
      let pos :=
        match posOpt with
        | some p => p
        | none =>
            { tradingsymbol := symbol, quantity := 0, average_price := 0,
              exchange := order.exchange, product := order.product, pnl := 0,
              last_price := price }
      let newTotalCost := pos.average_price * (pos.quantity : ℚ) + tradeValue
      let newQty := pos.quantity + quantity
      let pos :=
        { pos with quantity := newQty,
                   average_price := if newQty ≠ 0 then newTotalCost / (newQty : ℚ) else 0 }
      ({ st with positions := updatePaperPos st.positions symbol pos }, order)
    else
      let st := { st with balance := st.balance + tradeValue }
      match posOpt with
      | some pos =>
          let realizedPnl := (price - pos.average_price) * (quantity : ℚ)
          let order := { order with pnl := some realizedPnl }
          let pos : PaperPosition := { pos with quantity := pos.quantity - quantity }
          if pos.quantity = (0 : Int) then
            ({ st with positions := st.positions.filter (fun sp => ! (sp.1 == symbol)) }, order)
          else
            ({ st with positions := updatePaperPos st.positions symbol pos }, order)
      | none => (st, order)
  (st, { order with status := "COMPLETE", average_price := price, filled_quantity := quantity })

/-! ## Position & order store (`src/core/position_manager.py`, `src/utils/data_models.py`)

`self._positions` is a Python dict keyed by trading symbol and iterated in
insertion order; it is modelled as an association list.  Broker calls and Qt
signal emissions are recorded in an `Event` trace. -/

abbrev Sym := String
abbrev OrderId := String

/-- `Contract` from `data_models.py`, restricted to the fields the position
manager reads (`instrument_token`); the quote/Greeks fields are never touched
by the modelled code. -/
structure Contract where
  symbol : String
  tradingsymbol : Sym
  instrument_token : Nat
  lot_size : Nat
deriving DecidableEq, Repr

/-- `Position` from `data_models.py`.  `trailing_stop_loss` is not a declared
dataclass field but is attached dynamically by the callers
(`main_window._execute_single_strike_order`,
`PositionManager.update_sl_tp_for_position`) and read by the manager, so it is
modelled as an optional field.  `pnl` is `Option` because
`_synchronize_positions` guards on `pnl is not None`. -/
structure Position where
  symbol : Sym
  tradingsymbol : Sym
  quantity : Int
  average_price : ℚ
  ltp : ℚ
  pnl : Option ℚ
  contract : Contract
  order_id : Option OrderId
  exchange : String
  product : String
  stop_loss_price : Option ℚ
  target_price : Option ℚ
  stop_loss_order_id : Option OrderId
  target_order_id : Option OrderId
  trailing_stop_loss : Option ℚ
deriving DecidableEq, Repr

/-- `Position.update_pnl`. -/
def Position.update_pnl (p : Position) (new_ltp : ℚ) : Position :=
  { p with ltp := new_ltp, pnl := some ((new_ltp - p.average_price) * (p.quantity : ℚ)) }

/-- A broker order record, reduced to the keys the manager reads. -/
structure RawOrder where
  order_id : OrderId
  status : String
deriving DecidableEq, Repr

/-- A broker net-position record, reduced to the keys `_convert_api_to_position`
reads (with the `.get` defaults already applied except for the trading symbol,
whose absence makes the conversion return `None`). -/
structure RawPosition where
  tradingsymbol : Option Sym
  quantity : Int
  average_price : ℚ
  last_price : ℚ
  pnl : ℚ
  instrument_token : Nat
  exchange : String
  product : String
deriving DecidableEq, Repr

/-- A tick as consumed by `update_pnl_from_market_data`: the
`instrument_token` key is required, `last_price` is read via `.get` with a
default. -/
structure Tick where
  instrument_token : Nat
  last_price : Option ℚ
deriving DecidableEq, Repr

/-- Arguments of a `trader.place_order` call. -/
structure PlaceReq where
  variety : String
  exchange : String
  tradingsymbol : Sym
  transaction_type : String
  quantity : Int
  product : String
  order_type : String
  price : Option ℚ := none
  trigger_price : Option ℚ := none
deriving DecidableEq, Repr

/-- Trace of broker calls, `PnlLogger` calls and Qt signal emissions.
`priceUpdate s` marks a `Position.update_pnl` mutation during tick
processing. -/
inductive Event where
  | placeOrderCall (req : PlaceReq)
  | cancelOrderCall (oid : OrderId)
  | positionsUpdated
  | pendingOrdersUpdated
  | refreshCompleted (ok : Bool)
  | apiError (msg : String)
  | positionAdded (s : Sym)
  | positionRemoved (s : Sym)
  | logPnl (date_key : String) (v : ℚ)
  | priceUpdate (s : Sym)
deriving DecidableEq, Repr

/-- Outcome oracle for the duck-typed execution interface (KiteConnect or
`PaperTradingManager`): each call either returns or raises. -/
structure Trader where
  placeOrder : PlaceReq → Except String OrderId
  cancelOrder : OrderId → Except String Unit

structure PMState where
  positions : List (Sym × Position)
  pending_orders : List RawOrder
  realized_day_pnl : ℚ
  refresh_in_progress : Bool
deriving DecidableEq

/-- Python truthiness of an optional order-id string. -/
def truthyId : Option OrderId → Bool
  | none => false
  | some s => s ≠ ""

/-- Python truthiness of an optional float. -/
def truthyQ : Option ℚ → Bool
  | none => false
  | some v => v ≠ 0

@[simp] lemma truthyId_none : truthyId none = false := rfl

@[simp] lemma truthyId_some (s : OrderId) : truthyId (some s) = decide (s ≠ "") := rfl

@[simp] lemma truthyQ_none : truthyQ none = false := rfl

@[simp] lemma truthyQ_some (v : ℚ) : truthyQ (some v) = decide (v ≠ 0) := rfl

/-- Replace the value stored under key `s` (dict item assignment to an
existing key). -/
def setKey (positions : List (Sym × Position)) (s : Sym) (p : Position) :
    List (Sym × Position) :=
  positions.map (fun sp => if sp.1 == s then (sp.1, p) else sp)

/-- Dict assignment `d[s] = p`: overwrite in place if present, else append. -/
def upsertKey (positions : List (Sym × Position)) (s : Sym) (p : Position) :
    List (Sym × Position) :=
  if positions.any (fun sp => sp.1 == s) then setKey positions s p
  else positions ++ [(s, p)]

/-- `PositionManager._cancel_order(order_id, reason)`: guarded by truthiness,
the broker call is attempted and any failure is caught and logged. -/
def cancelOrderEff (oid : OrderId) : List Event :=
  if oid = "" then [] else [Event.cancelOrderCall oid]

/-- `PositionManager._cancel_pending_legs(position, reason)`: for each leg,
if its order id is truthy, attempt the cancel and clear the id. -/
def cancelPendingLegs (pos : Position) : Position × List Event :=
  ({ pos with
      stop_loss_order_id :=
        if truthyId pos.stop_loss_order_id then none else pos.stop_loss_order_id,
      target_order_id :=
        if truthyId pos.target_order_id then none else pos.target_order_id },
   (if truthyId pos.stop_loss_order_id then
      cancelOrderEff (pos.stop_loss_order_id.getD "") else [])
   ++ (if truthyId pos.target_order_id then
      cancelOrderEff (pos.target_order_id.getD "") else []))

/-- Membership of an order id in
`{o['order_id'] for o in api_orders if o.get('status') == 'COMPLETE'}`. -/
def isCompleteIn (api_orders : List RawOrder) (oid : OrderId) : Bool :=
  api_orders.any (fun o => o.order_id == oid && o.status == "COMPLETE")

/-- The body of the `_check_and_cancel_oco_orders` loop for one position
(`continue` unless one of the leg ids is truthy; then the `if`/`elif` on
`sl_executed`/`tp_executed`). -/
def checkAndCancelOcoPos (api_orders : List RawOrder) (pos : Position) :
    Position × List Event :=
  if truthyId pos.stop_loss_order_id || truthyId pos.target_order_id then
    if (truthyId pos.stop_loss_order_id
          && isCompleteIn api_orders (pos.stop_loss_order_id.getD ""))
        && truthyId pos.target_order_id then
      ({ pos with target_order_id := none },
       cancelOrderEff (pos.target_order_id.getD ""))
    else if (truthyId pos.target_order_id
          && isCompleteIn api_orders (pos.target_order_id.getD ""))
        && truthyId pos.stop_loss_order_id then
      ({ pos with stop_loss_order_id := none },
       cancelOrderEff (pos.stop_loss_order_id.getD ""))
    else (pos, [])
  else (pos, [])

/-- `PositionManager._check_and_cancel_oco_orders(api_orders)`: iterates a
snapshot of the position dict, mutating each position in place. -/
def checkAndCancelOco (api_orders : List RawOrder)
    (positions : List (Sym × Position)) : List (Sym × Position) × List Event :=
  positions.foldl
    (fun acc sp =>
      (acc.1 ++ [(sp.1, (checkAndCancelOcoPos api_orders sp.2).1)],
       acc.2 ++ (checkAndCancelOcoPos api_orders sp.2).2))
    ([], [])

/-- `PositionManager.remove_expired_positions()`.  The regex-based derivation
of an expiry date from the trading-symbol naming convention, compared against
`date.today()`, is abstracted as the oracle `expired`: `expired s = true` iff
the source parses an expiry date from `s` and that date is strictly before the
current date.  Removal and the per-symbol `position_removed` emissions follow
the source. -/
def removeExpiredPositions (expired : Sym → Bool)
    (positions : List (Sym × Position)) :
    List (Sym × Position) × List Event × Nat :=
  let expiredSyms := (positions.filter (fun sp => expired sp.1)).map Prod.fst
  let remaining := positions.filter (fun sp => ! expired sp.1)
  (remaining, expiredSyms.map Event.positionRemoved, expiredSyms.length)

/-- `PositionManager._synchronize_positions(new_positions)`.  `today` is the
`YYYY-MM-DD` key of `datetime.today()`.  Python iterates the removed-symbol
set in unspecified order; the model fixes the retained-dict order, which no
claim depends on. -/
def removedBySync (positions new_positions : List (Sym × Position)) :
    List (Sym × Position) :=
  positions.filter (fun sp => ! new_positions.any (fun np => np.1 == sp.1))

/-- The per-removed-symbol body of the `_synchronize_positions` loop: cancel
pending legs, fold P&L (when not `None`) into the realized total and log it,
then emit `position_removed`. -/
def removalEventsFor (today : String) (removed : List (Sym × Position)) :
    List Event :=
  (removed.map (fun sp =>
    (cancelPendingLegs sp.2).2 ++
      match sp.2.pnl with
      | some p => [Event.logPnl today p, Event.positionRemoved sp.1]
      | none => [Event.positionRemoved sp.1])).flatten

def synchronizePositions (today : String) (expired : Sym → Bool)
    (st : PMState) (new_positions : List (Sym × Position)) :
    PMState × List Event :=
  ({ st with
      positions := (removeExpiredPositions expired new_positions).1,
      realized_day_pnl := st.realized_day_pnl
        + ((removedBySync st.positions new_positions).map
            (fun sp => sp.2.pnl.getD 0)).sum },
   removalEventsFor today (removedBySync st.positions new_positions)
     ++ (removeExpiredPositions expired new_positions).2.1
     ++ (if 0 < (removeExpiredPositions expired new_positions).2.2 then
          [Event.positionsUpdated] else []))

/-- `PositionManager._convert_api_to_position(api_pos)`.  `tsMap` is the
`tradingsymbol_map` lookup composed with the `Contract` construction from the
instrument details; on a miss the source builds a placeholder contract whose
token comes from the raw record. -/
def convertApiToPosition (tsMap : Sym → Option Contract) (raw : RawPosition) :
    Option Position :=
  match raw.tradingsymbol with
  | none => none
  | some ts =>
      let contract :=
        match tsMap ts with
        | none =>
            { symbol := ts, tradingsymbol := ts,
              instrument_token := raw.instrument_token, lot_size := 1 }
        | some c => c
      some
        { symbol := ts, tradingsymbol := ts, quantity := raw.quantity,
          average_price := raw.average_price, ltp := raw.last_price,
          pnl := some raw.pnl, contract := contract, order_id := none,
          exchange := raw.exchange, product := raw.product,
          stop_loss_price := none, target_price := none,
          stop_loss_order_id := none, target_order_id := none,
          trailing_stop_loss := none }

/-- The merge in `_process_orders_and_positions`: a converted position adopts
the order ids, P&L and protective parameters of the existing position with the
same trading symbol. -/
def mergeWithExisting (st : PMState) (pos : Position) : Position :=
  match st.positions.lookup pos.tradingsymbol with
  | some ex =>
      { pos with order_id := ex.order_id,
                 stop_loss_order_id := ex.stop_loss_order_id,
                 target_order_id := ex.target_order_id,
                 pnl := ex.pnl,
                 stop_loss_price := ex.stop_loss_price,
                 target_price := ex.target_price,
                 trailing_stop_loss := ex.trailing_stop_loss }
  | none => pos

/-- `PositionManager._process_orders_and_positions(api_positions, api_orders)`.
Note the source builds `current_positions` (copying live order ids from the
old objects), then runs the OCO check on the *old* dict, then replaces the
dict with `current_positions` in `_synchronize_positions`. -/
def processOrdersAndPositions (tsMap : Sym → Option Contract) (today : String)
    (expired : Sym → Bool) (st : PMState)
    (api_positions : List RawPosition) (api_orders : List RawOrder) :
    PMState × List Event :=
  let pending := api_orders.filter
    (fun o => o.status == "TRIGGER PENDING" || o.status == "OPEN" || o.status == "AMO REQ RECEIVED")
  let current := api_positions.foldl
    (fun acc raw =>
      if raw.quantity ≠ 0 then
        match convertApiToPosition tsMap raw with
        | some pos => upsertKey acc pos.tradingsymbol (mergeWithExisting st pos)
        | none => acc
      else acc)
    []
  let (oldAfterOco, ocoEvents) := checkAndCancelOco api_orders st.positions
  let (st1, syncEvents) :=
    synchronizePositions today expired { st with positions := oldAfterOco } current
  ({ st1 with pending_orders := pending },
   ocoEvents ++ syncEvents ++ [Event.positionsUpdated, Event.pendingOrdersUpdated])

/-- `PositionManager.refresh_from_api()`.  The two broker calls are passed as
their outcomes (`positions()` is called first); every failure inside the try
is caught, converted to `api_error_occurred` + `refresh_completed(False)`, and
the guard flag is reset in the `finally`. -/
def refreshFromApi (tsMap : Sym → Option Contract) (today : String)
    (expired : Sym → Bool) (st : PMState)
    (posResult : Except String (List RawPosition))
    (ordResult : Except String (List RawOrder)) : PMState × List Event :=
  if st.refresh_in_progress then (st, [])
  else
    match posResult with
    | .error e =>
        ({ st with refresh_in_progress := false },
         [Event.apiError e, Event.refreshCompleted false])
    | .ok api_positions =>
        match ordResult with
        | .error e =>
            ({ st with refresh_in_progress := false },
             [Event.apiError e, Event.refreshCompleted false])
        | .ok api_orders =>
            let (st', ev) := processOrdersAndPositions tsMap today expired
              { st with refresh_in_progress := true } api_positions api_orders
            ({ st' with refresh_in_progress := false },
             ev ++ [Event.refreshCompleted true])

/-! ### Risk trigger engine: `update_pnl_from_market_data` and its callees -/

/-- `{tick['instrument_token']: tick for tick in ticks}`: later ticks for the
same token overwrite earlier ones. -/
def ticksByToken (ticks : List Tick) (tok : Nat) : Option Tick :=
  (ticks.filter (fun t => t.instrument_token == tok)).getLast?

/-- `PositionManager.remove_position(tradingsymbol)` acting on the position
dict; returns the new dict, the emitted events, and whether an entry was
actually popped (which makes the live dict iterator raise on its next step). -/
def removePositionList (positions : List (Sym × Position)) (s : Sym) :
    List (Sym × Position) × List Event × Bool :=
  match positions.lookup s with
  | none => (positions, [], false)
  | some pos =>
      (positions.filter (fun sp => ! (sp.1 == s)),
       (cancelPendingLegs pos).2 ++ [Event.positionRemoved s, Event.positionsUpdated],
       true)

/-- The market-sell request built by `PositionManager.exit_position`. -/
def exitReq (pos : Position) : PlaceReq :=
  { variety := "regular", exchange := pos.exchange,
    tradingsymbol := pos.tradingsymbol, transaction_type := "SELL",
    quantity := |pos.quantity|, product := pos.product,
    order_type := "MARKET" }

/-- `PositionManager.exit_position(position)`: submit a market sell; on
success remove the position locally; on failure the exception is caught and
logged. -/
def exitPosition (tr : Trader) (pos : Position)
    (positions : List (Sym × Position)) :
    List (Sym × Position) × List Event × Bool :=
  match tr.placeOrder (exitReq pos) with
  | .ok _ =>
      ((removePositionList positions pos.tradingsymbol).1,
       Event.placeOrderCall (exitReq pos)
         :: (removePositionList positions pos.tradingsymbol).2.1,
       (removePositionList positions pos.tradingsymbol).2.2)
  | .error _ => (positions, [Event.placeOrderCall (exitReq pos)], false)

/-- The stop order built by `PositionManager.place_stop_loss_order`. -/
def slReq (pos : Position) : PlaceReq :=
  { variety := "regular", exchange := pos.exchange,
    tradingsymbol := pos.tradingsymbol, transaction_type := "SELL",
    quantity := |pos.quantity|, product := pos.product,
    order_type := "SL", price := pos.stop_loss_price,
    trigger_price := pos.stop_loss_price }

/-- `PositionManager.place_stop_loss_order(position)`: on success the new
order id is recorded on the position; failure is caught and logged. -/
def placeStopLossOrder (tr : Trader) (pos : Position) : Position × List Event :=
  let req := slReq pos
  match tr.placeOrder req with
  | .ok oid => ({ pos with stop_loss_order_id := some oid }, [Event.placeOrderCall req])
  | .error _ => (pos, [Event.placeOrderCall req])

/-- `PositionManager.modify_stop_loss(tradingsymbol, new_sl_price)`: cancel
the old stop order, then update the stored stop-loss price and re-place the
stop order.  A cancel failure aborts (caught, state untouched); a re-place
failure is caught inside `place_stop_loss_order` and leaves the updated
price. -/
def modifyStopLoss (tr : Trader) (positions : List (Sym × Position)) (s : Sym)
    (new_sl_price : ℚ) : List (Sym × Position) × List Event :=
  match positions.lookup s with
  | none => (positions, [])
  | some pos =>
      if ¬ truthyId pos.stop_loss_order_id then (positions, [])
      else
        let oid := pos.stop_loss_order_id.getD ""
        match tr.cancelOrder oid with
        | .error _ => (positions, [Event.cancelOrderCall oid])
        | .ok _ =>
            (setKey positions s
              (placeStopLossOrder tr
                { pos with stop_loss_price := some new_sl_price }).1,
             Event.cancelOrderCall oid
               :: (placeStopLossOrder tr
                    { pos with stop_loss_price := some new_sl_price }).2)

/-- Accumulator of the `for pos in self._positions.values()` loop.
`sizeMutated` records that an entry was popped from the live dict: CPython
then raises `RuntimeError` at the iterator's next step, so remaining keys are
not processed and the final batched emission is skipped. -/
structure BatchAcc where
  positions : List (Sym × Position)
  events : List Event
  updated : Bool
  sizeMutated : Bool

/-- Price/P&L mutation step (guarded by the `1e-9` epsilon). -/
def priceStep (tbt : Nat → Option Tick) (acc : BatchAcc) (k : Sym)
    (pos : Position) : Position × BatchAcc :=
  match tbt pos.contract.instrument_token with
  | none => (pos, acc)
  | some tick =>
      let ltp := tick.last_price.getD pos.ltp
      if |pos.ltp - ltp| > 1 / 1000000000 then
        let pos' := pos.update_pnl ltp
        (pos', { acc with positions := setKey acc.positions k pos',
                          events := acc.events ++ [Event.priceUpdate k],
                          updated := true })
      else (pos, acc)

/-- The stop-loss exit condition of the loop
(`stop_loss_price is not None and quantity > 0` then `ltp <= stop_loss_price`). -/
def exitCondSL (pos : Position) : Bool :=
  pos.stop_loss_price.isSome && decide (0 < pos.quantity)
    && decide (pos.ltp ≤ pos.stop_loss_price.getD 0)

/-- The target exit condition of the loop. -/
def exitCondTP (pos : Position) : Bool :=
  pos.target_price.isSome && decide (0 < pos.quantity)
    && decide (pos.target_price.getD 0 ≤ pos.ltp)

/-- Exit trigger inside the loop: `self.exit_position(pos)` then `continue`. -/
def exitStep (tr : Trader) (acc : BatchAcc) (pos : Position) : BatchAcc :=
  { acc with positions := (exitPosition tr pos acc.positions).1,
             events := acc.events ++ (exitPosition tr pos acc.positions).2.1,
             sizeMutated := acc.sizeMutated || (exitPosition tr pos acc.positions).2.2 }

/-- Trailing-stop block of the loop (guards are Python truthiness; `//` on
floats is `⌊a / b⌋`). -/
def trailStep (tr : Trader) (acc : BatchAcc) (k : Sym) (pos : Position) : BatchAcc :=
  if truthyQ pos.trailing_stop_loss && truthyId pos.stop_loss_order_id
      && truthyQ pos.stop_loss_price then
    let t := pos.trailing_stop_loss.getD 0
    let sl := pos.stop_loss_price.getD 0
    let pnlPoints := pos.ltp - pos.average_price
    if 0 < pnlPoints then
      let currentTrailLevel : ℤ := ⌊(pos.average_price - sl) / t⌋
      let newTrailLevel : ℤ := ⌊pnlPoints / t⌋
      if currentTrailLevel < newTrailLevel then
        { acc with
            positions := (modifyStopLoss tr acc.positions k
              (sl + ((newTrailLevel - currentTrailLevel : ℤ) : ℚ) * t)).1,
            events := acc.events ++ (modifyStopLoss tr acc.positions k
              (sl + ((newTrailLevel - currentTrailLevel : ℤ) : ℚ) * t)).2 }
      else acc
    else acc
  else acc

/-- One iteration of the `update_pnl_from_market_data` loop, for the dict key
`k`.  A previously raised `RuntimeError` (`sizeMutated`) stops processing. -/
def stepKey (tr : Trader) (tbt : Nat → Option Tick) (acc : BatchAcc) (k : Sym) :
    BatchAcc :=
  if acc.sizeMutated then acc
  else
    match acc.positions.lookup k with
    | none => acc
    | some pos0 =>
        if exitCondSL (priceStep tbt acc k pos0).1 then
          exitStep tr (priceStep tbt acc k pos0).2 (priceStep tbt acc k pos0).1
        else if exitCondTP (priceStep tbt acc k pos0).1 then
          exitStep tr (priceStep tbt acc k pos0).2 (priceStep tbt acc k pos0).1
        else trailStep tr (priceStep tbt acc k pos0).2 k (priceStep tbt acc k pos0).1

/-- `PositionManager.update_pnl_from_market_data(data)` for one tick batch.
If an exit popped an entry, CPython's dict iterator raises before the final
`positions_updated` emission; the exception leaves the method (and is
swallowed by the Qt signal dispatcher), so the returned state is still the
state reached so far. -/
def updateBatch (tr : Trader) (st : PMState) (ticks : List Tick) :
    PMState × List Event :=
  let keys := st.positions.map Prod.fst
  let acc := keys.foldl (stepKey tr (ticksByToken ticks))
    { positions := st.positions, events := [], updated := false, sizeMutated := false }
  ({ st with positions := acc.positions },
   if acc.sizeMutated then acc.events
   else acc.events ++ (if acc.updated then [Event.positionsUpdated] else []))

/-- A sequence of tick batches, each processed to completion before the next
(the model of §5's sequential tick consumer); the execution interface may
resolve differently from batch to batch. -/
def runBatches (st : PMState) (batches : List (Trader × List Tick)) :
    PMState × List Event :=
  batches.foldl
    (fun acc b =>
      ((updateBatch b.1 acc.1 b.2).1, acc.2 ++ (updateBatch b.1 acc.1 b.2).2))
    (st, [])

/-! ## Concrete fixtures used by witnesses and counterexamples -/

/-- An execution interface whose calls all succeed. -/
def traderOk : Trader :=
  { placeOrder := fun _ => .ok "NEWID", cancelOrder := fun _ => .ok () }

/-- An execution interface whose `place_order` raises. -/
def traderReject : Trader :=
  { placeOrder := fun _ => .error "OrderException", cancelOrder := fun _ => .ok () }

def contractX : Contract :=
  { symbol := "X", tradingsymbol := "X", instrument_token := 7, lot_size := 50 }

/-- A long option position bought at 100, now trading at 110. -/
def basePos : Position :=
  { symbol := "X", tradingsymbol := "X", quantity := 50, average_price := 100,
    ltp := 110, pnl := some 500, contract := contractX, order_id := none,
    exchange := "NFO", product := "MIS", stop_loss_price := none,
    target_price := none, stop_loss_order_id := none, target_order_id := none,
    trailing_stop_loss := none }

def contractAAA : Contract :=
  { symbol := "AAA", tradingsymbol := "AAA", instrument_token := 9, lot_size := 1 }

/-- The C6 scenario position: quantity +2, average price 100, P&L 50. -/
def posAAA : Position :=
  { symbol := "AAA", tradingsymbol := "AAA", quantity := 2, average_price := 100,
    ltp := 125, pnl := some 50, contract := contractAAA, order_id := none,
    exchange := "NFO", product := "MIS", stop_loss_price := none,
    target_price := none, stop_loss_order_id := none, target_order_id := none,
    trailing_stop_loss := none }

def stAAA : PMState :=
  { positions := [("AAA", posAAA)], pending_orders := [], realized_day_pnl := 0,
    refresh_in_progress := false }

/-- A bracket position holding both protective leg order ids. -/
def posBothLegs : Position :=
  { basePos with stop_loss_order_id := some "S1", target_order_id := some "T1" }

/-- Trailing configured (distance 5) and a stop-loss price (95) but no live
stop-loss order id. -/
def posTrailNoOid : Position :=
  { basePos with stop_loss_price := some 95, trailing_stop_loss := some 5 }

def stTrailNoOid : PMState :=
  { positions := [("X", posTrailNoOid)], pending_orders := [],
    realized_day_pnl := 0, refresh_in_progress := false }

/-- Same position but with a live stop-loss order id `SL1`. -/
def posTrailOid : Position :=
  { posTrailNoOid with stop_loss_order_id := some "SL1" }

def stTrailOid : PMState :=
  { positions := [("X", posTrailOid)], pending_orders := [],
    realized_day_pnl := 0, refresh_in_progress := false }

/-! ## Claim theorems -/

/-- **C3** (circuit breaker cycle): with `failure_threshold=3, timeout=30s`,
three consecutive recorded failures move CLOSED→OPEN (the first two leave it
CLOSED); `can_execute` is `false` and leaves the state OPEN while less than
30 s has passed since the last failure; once the cooldown has elapsed the next
`can_execute` returns `true` and moves the state to HALF_OPEN; a subsequent
recorded success resets the count to 0 and the state to CLOSED, and a
subsequent recorded failure returns the state to OPEN with the failure
timestamp (cooldown timer) restarted. -/
theorem c3_circuit_breaker_cycle (t1 t2 t3 tEarly tReady t4 : Nat)
    (hEarly : tEarly < t3 + 30) (hReady : t3 + 30 ≤ tReady) :
    (recordFailure (APICircuitBreaker.init 3 30) t1).state = CBState.closed ∧
    (recordFailure (recordFailure (APICircuitBreaker.init 3 30) t1) t2).state = CBState.closed ∧
    (recordFailure (recordFailure (recordFailure (APICircuitBreaker.init 3 30) t1) t2) t3)
      = { failure_threshold := 3, timeout_seconds := 30, failure_count := 3,
          last_failure_time := some t3, state := CBState.opened } ∧
    (canExecute (recordFailure (recordFailure (recordFailure
        (APICircuitBreaker.init 3 30) t1) t2) t3) tEarly).1 = false ∧
    (canExecute (recordFailure (recordFailure (recordFailure
        (APICircuitBreaker.init 3 30) t1) t2) t3) tEarly).2.state = CBState.opened ∧
    (canExecute (recordFailure (recordFailure (recordFailure
        (APICircuitBreaker.init 3 30) t1) t2) t3) tReady).1 = true ∧
    (canExecute (recordFailure (recordFailure (recordFailure
        (APICircuitBreaker.init 3 30) t1) t2) t3) tReady).2.state = CBState.halfOpen ∧
    (recordSuccess (canExecute (recordFailure (recordFailure (recordFailure
        (APICircuitBreaker.init 3 30) t1) t2) t3) tReady).2).failure_count = 0 ∧
    (recordSuccess (canExecute (recordFailure (recordFailure (recordFailure
        (APICircuitBreaker.init 3 30) t1) t2) t3) tReady).2).state = CBState.closed ∧
    (recordFailure (canExecute (recordFailure (recordFailure (recordFailure
        (APICircuitBreaker.init 3 30) t1) t2) t3) tReady).2 t4).state = CBState.opened ∧
    (recordFailure (canExecute (recordFailure (recordFailure (recordFailure
        (APICircuitBreaker.init 3 30) t1) t2) t3) tReady).2 t4).last_failure_time = some t4 := by
  have hA : ¬ (t3 + 30 ≤ tEarly) := by omega
  refine ⟨?_, ?_, ?_, ?_, ?_, ?_, ?_, ?_, ?_, ?_, ?_⟩ <;>
    simp [recordFailure, APICircuitBreaker.init, canExecute, shouldAttemptReset,
          recordSuccess, hA, hReady]

/-- Witness for C3 at the concrete schedule
`failures at 0,1,2; canExecute at 10 (blocked) and at 32 (half-open);
then a failure at 40`. -/
theorem c3_circuit_breaker_cycle_witness :
    (10 < 2 + 30 ∧ 2 + 30 ≤ 32) ∧
    ((recordFailure (APICircuitBreaker.init 3 30) 0).state = CBState.closed ∧
     (recordFailure (recordFailure (APICircuitBreaker.init 3 30) 0) 1).state = CBState.closed ∧
     (recordFailure (recordFailure (recordFailure (APICircuitBreaker.init 3 30) 0) 1) 2)
       = { failure_threshold := 3, timeout_seconds := 30, failure_count := 3,
           last_failure_time := some 2, state := CBState.opened } ∧
     (canExecute (recordFailure (recordFailure (recordFailure
         (APICircuitBreaker.init 3 30) 0) 1) 2) 10).1 = false ∧
     (canExecute (recordFailure (recordFailure (recordFailure
         (APICircuitBreaker.init 3 30) 0) 1) 2) 10).2.state = CBState.opened ∧
     (canExecute (recordFailure (recordFailure (recordFailure
         (APICircuitBreaker.init 3 30) 0) 1) 2) 32).1 = true ∧
     (canExecute (recordFailure (recordFailure (recordFailure
         (APICircuitBreaker.init 3 30) 0) 1) 2) 32).2.state = CBState.halfOpen ∧
     (recordSuccess (canExecute (recordFailure (recordFailure (recordFailure
         (APICircuitBreaker.init 3 30) 0) 1) 2) 32).2).failure_count = 0 ∧
     (recordSuccess (canExecute (recordFailure (recordFailure (recordFailure
         (APICircuitBreaker.init 3 30) 0) 1) 2) 32).2).state = CBState.closed ∧
     (recordFailure (canExecute (recordFailure (recordFailure (recordFailure
         (APICircuitBreaker.init 3 30) 0) 1) 2) 32).2 40).state = CBState.opened ∧
     (recordFailure (canExecute (recordFailure (recordFailure (recordFailure
         (APICircuitBreaker.init 3 30) 0) 1) 2) 32).2 40).last_failure_time = some 40) :=
  ⟨⟨by decide, by decide⟩, c3_circuit_breaker_cycle 0 1 2 10 32 40 (by decide) (by decide)⟩

/-- **C8** (realized P&L accumulation): for every date key and every sequence
of `log_pnl` calls, the stored value for that date is the sum of all values
logged for it; in particular logging +500 then −200 for one date stores
exactly +300. -/
theorem c8_realized_pnl_accumulates :
    (∀ (logs : List (String × ℚ)) (d : String),
        getPnlForDate (applyLogs emptyPnlDb logs) d
          = ((logs.filter (fun l => l.1 == d)).map Prod.snd).sum) ∧
    applyLogs emptyPnlDb [("2025-10-10", 500), ("2025-10-10", -200)] "2025-10-10"
      = some 300 := by
  constructor
  · intro logs d
    rw [applyLogs_get]
    simp [getPnlForDate, emptyPnlDb]
  · norm_num [applyLogs, logPnl, emptyPnlDb]

/-- **C9** (subscription diff): with the connection established and successful
transport calls, a non-append `set_instruments` issues exactly one subscribe
(plus its mode set) for the added tokens and exactly one unsubscribe for the
dropped tokens (each only when non-empty) and tracks the new set — in the
`{1,2,3} → {2,3,4}` scenario that is one subscribe for `{4}` and one
unsubscribe for `{1}`; in append mode nothing is unsubscribed and only
additions are subscribed; when the connection is not established the desired
set is stored without any call and is applied in full on connect. -/
theorem c9_set_instruments_diff :
    ((setInstruments ⟨true, true, {1, 2, 3}⟩ {2, 3, 4} false true).2
        = [WsCall.subscribe {4}, WsCall.setMode {4}, WsCall.unsubscribe {1}] ∧
      (setInstruments ⟨true, true, {1, 2, 3}⟩ {2, 3, 4} false true).1.subscribed_tokens
        = {2, 3, 4}) ∧
    (∀ (w : MarketDataWorker) (tokens : Finset Nat),
      w.kwsInitialized = true → w.kwsConnected = true →
      (setInstruments w tokens false true).2
        = (if tokens \ w.subscribed_tokens ≠ ∅ then
             [WsCall.subscribe (tokens \ w.subscribed_tokens),
              WsCall.setMode (tokens \ w.subscribed_tokens)]
           else [])
          ++ (if w.subscribed_tokens \ tokens ≠ ∅ then
                [WsCall.unsubscribe (w.subscribed_tokens \ tokens)]
              else []) ∧
      (setInstruments w tokens false true).1.subscribed_tokens = tokens) ∧
    (∀ (w : MarketDataWorker) (tokens : Finset Nat),
      w.kwsInitialized = true → w.kwsConnected = true →
      (setInstruments w tokens true true).2
        = (if tokens \ w.subscribed_tokens ≠ ∅ then
             [WsCall.subscribe (tokens \ w.subscribed_tokens),
              WsCall.setMode (tokens \ w.subscribed_tokens)]
           else []) ∧
      (∀ s, WsCall.unsubscribe s ∉ (setInstruments w tokens true true).2) ∧
      (setInstruments w tokens true true).1.subscribed_tokens
        = tokens ∪ w.subscribed_tokens) ∧
    (∀ (w : MarketDataWorker) (tokens : Finset Nat),
      w.kwsConnected = false →
      (setInstruments w tokens false true).2 = [] ∧
      (setInstruments w tokens false true).1.subscribed_tokens = tokens ∧
      (tokens ≠ ∅ →
        (onConnectSubscribe (setInstruments w tokens false true).1 true).2
          = [WsCall.subscribe tokens, WsCall.setMode tokens])) := by
  refine ⟨⟨by decide, by decide⟩, ?_, ?_, ?_⟩
  · intro w tokens hInit hConn
    simp only [setInstruments, hInit, hConn, if_false, Bool.not_true, not_false_eq_true]
    constructor
    · by_cases hAdd : tokens \ w.subscribed_tokens ≠ ∅ <;> simp [hAdd]
    · by_cases hAdd : tokens \ w.subscribed_tokens ≠ ∅ <;> simp [hAdd]
  · intro w tokens hInit hConn
    have hDiff : (tokens ∪ w.subscribed_tokens) \ w.subscribed_tokens
        = tokens \ w.subscribed_tokens := by
      ext a; simp [Finset.mem_sdiff, Finset.mem_union]; tauto
    simp only [setInstruments, hInit, hConn, if_true, hDiff]
    refine ⟨?_, ?_, ?_⟩
    · by_cases hAdd : tokens \ w.subscribed_tokens ≠ ∅ <;> simp [hAdd]
    · intro s
      by_cases hAdd : tokens \ w.subscribed_tokens ≠ ∅ <;> simp [hAdd]
    · by_cases hAdd : tokens \ w.subscribed_tokens ≠ ∅ <;> simp [hAdd]
  · intro w tokens hConn
    by_cases hInit : w.kwsInitialized = true
    · simp only [setInstruments, hInit, hConn]
      refine ⟨by simp, by simp, ?_⟩
      intro hne
      simp [onConnectSubscribe, hne]
    · have hInit' : w.kwsInitialized = false := by
        cases h : w.kwsInitialized
        · rfl
        · exact absurd h hInit
      simp only [setInstruments, hInit']
      refine ⟨by simp, by simp, ?_⟩
      intro hne
      simp [onConnectSubscribe, hne]

/-- Witness for C9: the general conjuncts applied at the scenario worker. -/
theorem c9_set_instruments_diff_witness :
    ((setInstruments ⟨true, true, {1, 2, 3}⟩ {2, 3, 4} false true).2
        = (if ({2, 3, 4} : Finset Nat) \ {1, 2, 3} ≠ ∅ then
             [WsCall.subscribe (({2, 3, 4} : Finset Nat) \ {1, 2, 3}),
              WsCall.setMode (({2, 3, 4} : Finset Nat) \ {1, 2, 3})]
           else [])
          ++ (if ({1, 2, 3} : Finset Nat) \ {2, 3, 4} ≠ ∅ then
                [WsCall.unsubscribe (({1, 2, 3} : Finset Nat) \ {2, 3, 4})]
              else []) ∧
      (setInstruments ⟨true, true, {1, 2, 3}⟩ {2, 3, 4} false true).1.subscribed_tokens
        = {2, 3, 4}) ∧
    (setInstruments ⟨true, true, {1, 2, 3}⟩ {2, 3, 4} true true).1.subscribed_tokens
      = {2, 3, 4} ∪ {1, 2, 3} ∧
    (setInstruments ⟨true, false, {1, 2, 3}⟩ {5, 6} false true).2 = [] :=
  ⟨c9_set_instruments_diff.2.1 ⟨true, true, {1, 2, 3}⟩ {2, 3, 4} rfl rfl,
   (c9_set_instruments_diff.2.2.1 ⟨true, true, {1, 2, 3}⟩ {2, 3, 4} rfl rfl).2.2,
   (c9_set_instruments_diff.2.2.2 ⟨true, false, {1, 2, 3}⟩ {5, 6} rfl).1⟩

/-- **C10** (paper sell with no position): `_execute_trade` on a SELL order
whose symbol has no simulated position completes without error: the balance
is credited `quantity × price`, the simulated position map (and market data)
is untouched, and the order becomes COMPLETE with that fill price and
quantity while its `pnl` key stays absent. -/
theorem c10_paper_sell_no_position (st : PaperState) (order : PaperOrder) (price : ℚ)
    (hsell : order.transaction_type = "SELL")
    (habs : st.positions.lookup order.tradingsymbol = none)
    (hpos : 0 < price) :
    (executeTrade st order price).1.balance
        = st.balance + (order.quantity : ℚ) * price ∧
    (executeTrade st order price).1.positions = st.positions ∧
    (executeTrade st order price).1.market_data = st.market_data ∧
    (executeTrade st order price).2
      = { order with status := "COMPLETE", average_price := price,
                     filled_quantity := order.quantity } ∧
    (executeTrade st order price).2.pnl = order.pnl := by
  have hnotle : ¬ price ≤ 0 := not_le.mpr hpos
  have hbuy : (order.transaction_type == "BUY") = false := by
    simp [hsell]
  refine ⟨?_, ?_, ?_, ?_, ?_⟩ <;>
    simp [executeTrade, hnotle, hbuy, habs]

/-- Witness for C10: selling 10 units at 25 from an empty simulated book. -/
theorem c10_paper_sell_no_position_witness :
    (executeTrade
        { balance := 1000, positions := [], market_data := [],
          tradingsymbol_to_token := [] }
        { order_id := "paper_1", tradingsymbol := "Y", transaction_type := "SELL",
          quantity := 10, price := none, order_type := "MARKET", product := "MIS",
          exchange := "NFO", status := "OPEN", average_price := 0,
          filled_quantity := 0, pnl := none }
        25).1.balance = 1000 + (10 : ℚ) * 25 ∧
    (executeTrade
        { balance := 1000, positions := [], market_data := [],
          tradingsymbol_to_token := [] }
        { order_id := "paper_1", tradingsymbol := "Y", transaction_type := "SELL",
          quantity := 10, price := none, order_type := "MARKET", product := "MIS",
          exchange := "NFO", status := "OPEN", average_price := 0,
          filled_quantity := 0, pnl := none }
        25).1.positions = [] :=
  ⟨(c10_paper_sell_no_position
      { balance := 1000, positions := [], market_data := [],
        tradingsymbol_to_token := [] }
      { order_id := "paper_1", tradingsymbol := "Y", transaction_type := "SELL",
        quantity := 10, price := none, order_type := "MARKET", product := "MIS",
        exchange := "NFO", status := "OPEN", average_price := 0,
        filled_quantity := 0, pnl := none }
      25 rfl rfl (by norm_num)).1,
   (c10_paper_sell_no_position
      { balance := 1000, positions := [], market_data := [],
        tradingsymbol_to_token := [] }
      { order_id := "paper_1", tradingsymbol := "Y", transaction_type := "SELL",
        quantity := 10, price := none, order_type := "MARKET", product := "MIS",
        exchange := "NFO", status := "OPEN", average_price := 0,
        filled_quantity := 0, pnl := none }
      25 rfl rfl (by norm_num)).2.1⟩

/-- **C7** (stale-but-safe refresh): if either broker call inside
`refresh_from_api` raises, the failure is caught (the model is total), an
error notification carrying it plus a `refresh_completed(False)` are the only
emissions, and the held position set, pending-order set and realized P&L are
left completely unchanged with the re-entrancy flag reset. -/
theorem c7_refresh_failure_stale_but_safe
    (tsMap : Sym → Option Contract) (today : String) (expired : Sym → Bool)
    (st : PMState) (posResult : Except String (List RawPosition))
    (ordResult : Except String (List RawOrder)) (e : String)
    (hidle : st.refresh_in_progress = false)
    (hfail : posResult = .error e ∨
      (∃ ps, posResult = .ok ps ∧ ordResult = .error e)) :
    (refreshFromApi tsMap today expired st posResult ordResult).1.positions
        = st.positions ∧
    (refreshFromApi tsMap today expired st posResult ordResult).1.pending_orders
        = st.pending_orders ∧
    (refreshFromApi tsMap today expired st posResult ordResult).1.realized_day_pnl
        = st.realized_day_pnl ∧
    (refreshFromApi tsMap today expired st posResult ordResult).1.refresh_in_progress
        = false ∧
    (refreshFromApi tsMap today expired st posResult ordResult).2
        = [Event.apiError e, Event.refreshCompleted false] := by
  rcases hfail with hpos | ⟨ps, hpos, hord⟩
  · subst hpos
    simp [refreshFromApi, hidle]
  · subst hpos; subst hord
    simp [refreshFromApi, hidle]

/-- Witness for C7: a one-position store whose `orders()` call raises. -/
theorem c7_refresh_failure_stale_but_safe_witness :
    (refreshFromApi (fun _ => none) "2025-10-10" (fun _ => false)
        { positions := [("AAA",
            { symbol := "AAA", tradingsymbol := "AAA", quantity := 2,
              average_price := 100, ltp := 125, pnl := some 50,
              contract := { symbol := "AAA", tradingsymbol := "AAA",
                            instrument_token := 9, lot_size := 1 },
              order_id := none, exchange := "NFO", product := "MIS",
              stop_loss_price := none, target_price := none,
              stop_loss_order_id := none, target_order_id := none,
              trailing_stop_loss := none })],
          pending_orders := [], realized_day_pnl := 0,
          refresh_in_progress := false }
        (.ok []) (.error "NetworkException")).1.positions
      = [("AAA",
            { symbol := "AAA", tradingsymbol := "AAA", quantity := 2,
              average_price := 100, ltp := 125, pnl := some 50,
              contract := { symbol := "AAA", tradingsymbol := "AAA",
                            instrument_token := 9, lot_size := 1 },
              order_id := none, exchange := "NFO", product := "MIS",
              stop_loss_price := none, target_price := none,
              stop_loss_order_id := none, target_order_id := none,
              trailing_stop_loss := none })] ∧
    (refreshFromApi (fun _ => none) "2025-10-10" (fun _ => false)
        { positions := [("AAA",
            { symbol := "AAA", tradingsymbol := "AAA", quantity := 2,
              average_price := 100, ltp := 125, pnl := some 50,
              contract := { symbol := "AAA", tradingsymbol := "AAA",
                            instrument_token := 9, lot_size := 1 },
              order_id := none, exchange := "NFO", product := "MIS",
              stop_loss_price := none, target_price := none,
              stop_loss_order_id := none, target_order_id := none,
              trailing_stop_loss := none })],
          pending_orders := [], realized_day_pnl := 0,
          refresh_in_progress := false }
        (.ok []) (.error "NetworkException")).2
      = [Event.apiError "NetworkException", Event.refreshCompleted false] := by
  refine ⟨?_, ?_⟩
  · exact (c7_refresh_failure_stale_but_safe (fun _ => none) "2025-10-10"
      (fun _ => false) _ (.ok []) (.error "NetworkException") "NetworkException"
      rfl (Or.inr ⟨[], rfl, rfl⟩)).1
  · exact (c7_refresh_failure_stale_but_safe (fun _ => none) "2025-10-10"
      (fun _ => false) _ (.ok []) (.error "NetworkException") "NetworkException"
      rfl (Or.inr ⟨[], rfl, rfl⟩)).2.2.2.2

/-! ### Association-list and trace lemmas -/

lemma lookup_mem {l : List (Sym × Position)} {s : Sym} {pos : Position}
    (h : l.lookup s = some pos) : (s, pos) ∈ l := by
  induction l with
  | nil => simp [List.lookup] at h
  | cons hd tl ih =>
      rw [List.lookup] at h
      by_cases hk : (s == hd.1) = true
      · simp only [hk] at h
        have h1 : hd.1 = s := (beq_iff_eq.mp hk).symm
        have h2 : hd.2 = pos := by injection h
        have : hd = (s, pos) := by
          cases hd
          simp_all
        rw [this]
        exact List.mem_cons_self _ _
      · have hk' : (s == hd.1) = false := by simpa using hk
        simp only [hk'] at h
        exact List.mem_cons_of_mem _ (ih h)

lemma lookup_none_of_keys_ne {l : List (Sym × Position)} {s : Sym}
    (h : ∀ sp ∈ l, sp.1 ≠ s) : l.lookup s = none := by
  induction l with
  | nil => rfl
  | cons hd tl ih =>
      rw [List.lookup]
      have hne : (s == hd.1) = false := by
        rw [beq_eq_false_iff_ne]
        intro hbeq
        exact h hd (List.mem_cons_self hd tl) hbeq.symm
      simp only [hne]
      exact ih (fun sp hsp => h sp (List.mem_cons_of_mem _ hsp))

lemma cancelOrderEff_mem {oid : OrderId} {e : Event} (he : e ∈ cancelOrderEff oid) :
    e = Event.cancelOrderCall oid := by
  unfold cancelOrderEff at he
  split at he
  · simp at he
  · simpa using he

lemma cancelPendingLegs_events_are_cancels (pos : Position) :
    ∀ e ∈ (cancelPendingLegs pos).2, ∃ oid, e = Event.cancelOrderCall oid := by
  intro e he
  unfold cancelPendingLegs at he
  simp only at he
  rcases List.mem_append.mp he with hm | hm
  · split at hm
    · exact ⟨_, cancelOrderEff_mem hm⟩
    · simp at hm
  · split at hm
    · exact ⟨_, cancelOrderEff_mem hm⟩
    · simp at hm

lemma count_eq_zero_of_cancels {l : List Event} {s : Sym}
    (h : ∀ e ∈ l, ∃ oid, e = Event.cancelOrderCall oid) :
    l.count (Event.positionRemoved s) = 0 := by
  rw [List.count_eq_zero]
  intro hmem
  rcases h _ hmem with ⟨oid, heq⟩
  exact Event.noConfusion heq

lemma removalEventsFor_cons (today : String) (hd : Sym × Position)
    (tl : List (Sym × Position)) :
    removalEventsFor today (hd :: tl)
      = ((cancelPendingLegs hd.2).2 ++
          match hd.2.pnl with
          | some p => [Event.logPnl today p, Event.positionRemoved hd.1]
          | none => [Event.positionRemoved hd.1])
        ++ removalEventsFor today tl := by
  unfold removalEventsFor
  rw [List.map_cons, List.flatten_cons]

lemma removalEventsFor_count (today : String) (removed : List (Sym × Position))
    (s : Sym) :
    (removalEventsFor today removed).count (Event.positionRemoved s)
      = (removed.map Prod.fst).count s := by
  induction removed with
  | nil => rfl
  | cons hd tl ih =>
      rw [removalEventsFor_cons, List.count_append, List.count_append, ih,
        count_eq_zero_of_cancels (cancelPendingLegs_events_are_cancels hd.2)]
      rcases hp : hd.2.pnl with _ | p <;>
        simp [List.count_cons, List.map_cons, beq_iff_eq, Nat.add_comm]

lemma removalEventsFor_logPnl_mem {today : String}
    {removed : List (Sym × Position)} {s : Sym} {pos : Position} {p : ℚ}
    (hmem : (s, pos) ∈ removed) (hp : pos.pnl = some p) :
    Event.logPnl today p ∈ removalEventsFor today removed := by
  unfold removalEventsFor
  rw [List.mem_flatten]
  refine ⟨_, List.mem_map_of_mem _ hmem, ?_⟩
  simp only [hp]
  exact List.mem_append.mpr (Or.inr (List.mem_cons_self _ _))

lemma removedBySync_mem {positions new_positions : List (Sym × Position)}
    {s : Sym} {pos : Position} (hmem : (s, pos) ∈ positions)
    (habs : new_positions.any (fun np => np.1 == s) = false) :
    (s, pos) ∈ removedBySync positions new_positions := by
  rw [removedBySync, List.mem_filter]
  exact ⟨hmem, by simp [habs]⟩

/-- **C6** (reconciliation removes a closed position): if the store holds a
position for symbol `s` with last-known P&L `p` and the broker snapshot lacks
`s`, then after `_synchronize_positions`: `s` is absent from the retained
set, exactly one `position_removed` notification for `s` fires, the P&L is
logged keyed by the close date, the realized total rises by the removed
positions' P&L — exactly `p` when `s` is the only symbol that disappeared. -/
theorem c6_sync_removes_closed_position
    (today : String) (expired : Sym → Bool) (st : PMState)
    (new_positions : List (Sym × Position)) (s : Sym) (pos : Position) (p : ℚ)
    (hnodup : (st.positions.map Prod.fst).Nodup)
    (hmem : st.positions.lookup s = some pos)
    (hpnl : pos.pnl = some p)
    (habs : new_positions.any (fun np => np.1 == s) = false) :
    (synchronizePositions today expired st new_positions).1.positions.lookup s
        = none ∧
    ((synchronizePositions today expired st new_positions).2.count
        (Event.positionRemoved s)) = 1 ∧
    Event.logPnl today p ∈ (synchronizePositions today expired st new_positions).2 ∧
    (synchronizePositions today expired st new_positions).1.realized_day_pnl
      = st.realized_day_pnl
        + ((removedBySync st.positions new_positions).map
            (fun sp => sp.2.pnl.getD 0)).sum ∧
    ((∀ sp ∈ st.positions, sp.1 ≠ s →
        new_positions.any (fun np => np.1 == sp.1) = true) →
      (synchronizePositions today expired st new_positions).1.realized_day_pnl
        = st.realized_day_pnl + p) := by
  have hmem' : (s, pos) ∈ st.positions := lookup_mem hmem
  have hrem : (s, pos) ∈ removedBySync st.positions new_positions :=
    removedBySync_mem hmem' habs
  have hanyfalse : ∀ np ∈ new_positions, np.1 ≠ s := by
    intro np hnp
    have := (List.any_eq_false).mp habs np hnp
    simpa using this
  refine ⟨?_, ?_, ?_, ?_, ?_⟩
  · -- s absent from the retained (expiry-filtered) new set
    show (removeExpiredPositions expired new_positions).1.lookup s = none
    apply lookup_none_of_keys_ne
    intro sp hsp
    exact hanyfalse sp (List.mem_of_mem_filter hsp)
  · -- exactly one position_removed notification for s
    show (removalEventsFor today (removedBySync st.positions new_positions)
        ++ (removeExpiredPositions expired new_positions).2.1
        ++ (if 0 < (removeExpiredPositions expired new_positions).2.2 then
             [Event.positionsUpdated] else [])).count (Event.positionRemoved s) = 1
    rw [List.count_append, List.count_append, removalEventsFor_count]
    have hexp : ((removeExpiredPositions expired new_positions).2.1).count
        (Event.positionRemoved s) = 0 := by
      rw [List.count_eq_zero]
      intro hmem2
      rw [removeExpiredPositions] at hmem2
      simp only [List.mem_map] at hmem2
      rcases hmem2 with ⟨sym, ⟨sp, hsp, hfst⟩, heq⟩
      have hne : sp.1 ≠ s := hanyfalse sp (List.mem_of_mem_filter hsp)
      have hsym : sym = s := by injection heq
      exact hne (hfst.trans hsym)
    have hif : (if 0 < (removeExpiredPositions expired new_positions).2.2 then
        [Event.positionsUpdated] else []).count (Event.positionRemoved s) = 0 := by
      split <;> simp
    rw [hexp, hif]
    have hle : ((removedBySync st.positions new_positions).map Prod.fst).count s ≤ 1 := by
      have hsub : (removedBySync st.positions new_positions).Sublist st.positions :=
        List.filter_sublist _
      have hsub2 : ((removedBySync st.positions new_positions).map Prod.fst).Sublist
          (st.positions.map Prod.fst) := hsub.map _
      exact le_trans (hsub2.count_le s)
        (List.nodup_iff_count_le_one.mp hnodup s)
    have hge : 1 ≤ ((removedBySync st.positions new_positions).map Prod.fst).count s := by
      rw [Nat.one_le_iff_ne_zero, Ne, List.count_eq_zero]
      intro hns
      exact hns (List.mem_map_of_mem Prod.fst hrem)
    omega
  · -- the P&L is logged keyed by the close date
    exact List.mem_append.mpr (Or.inl (List.mem_append.mpr (Or.inl
      (removalEventsFor_logPnl_mem hrem hpnl))))
  · rfl
  · -- s the only disappeared symbol: realized rises by exactly p
    intro hothers
    have hsingle : removedBySync st.positions new_positions = [(s, pos)] := by
      have hkeys : ∀ sp ∈ removedBySync st.positions new_positions, sp.1 = s := by
        intro sp hsp
        rcases List.mem_filter.mp hsp with ⟨hspmem, hcond⟩
        by_contra hne
        have := hothers sp hspmem hne
        simp [this] at hcond
      have hlen : (removedBySync st.positions new_positions).length ≤ 1 := by
        have hcnt : ((removedBySync st.positions new_positions).map Prod.fst).count s
            = ((removedBySync st.positions new_positions).map Prod.fst).length := by
          rw [List.count_eq_length]
          intro b hb
          rcases List.mem_map.mp hb with ⟨sp, hsp, hfst⟩
          rw [← hfst]
          exact (hkeys sp hsp).symm
        have hle : ((removedBySync st.positions new_positions).map Prod.fst).count s ≤ 1 := by
          have hsub : (removedBySync st.positions new_positions).Sublist st.positions :=
            List.filter_sublist _
          exact le_trans ((hsub.map Prod.fst).count_le s)
            (List.nodup_iff_count_le_one.mp hnodup s)
        rw [hcnt, List.length_map] at hle
        exact hle
      rcases hlist : removedBySync st.positions new_positions with _ | ⟨hd, tl⟩
      · rw [hlist] at hrem
        exact absurd hrem (List.not_mem_nil _)
      · rw [hlist] at hlen hrem
        have htl : tl = [] := by
          cases tl
          · rfl
          · simp at hlen
        subst htl
        have : hd = (s, pos) := by
          rcases List.mem_singleton.mp hrem with h
          exact h.symm
        rw [this]
    show st.realized_day_pnl
        + ((removedBySync st.positions new_positions).map (fun sp => sp.2.pnl.getD 0)).sum
      = st.realized_day_pnl + p
    rw [hsingle]
    simp [hpnl]

/-- Witness for C6: the `AAA, pnl = 50` scenario against an empty broker
snapshot. -/
theorem c6_sync_removes_closed_position_witness :
    (synchronizePositions "2025-10-12" (fun _ => false) stAAA []).1.positions.lookup "AAA"
        = none ∧
    ((synchronizePositions "2025-10-12" (fun _ => false) stAAA []).2.count
        (Event.positionRemoved "AAA")) = 1 ∧
    Event.logPnl "2025-10-12" 50
      ∈ (synchronizePositions "2025-10-12" (fun _ => false) stAAA []).2 ∧
    (synchronizePositions "2025-10-12" (fun _ => false) stAAA []).1.realized_day_pnl
      = 0 + 50 := by
  have h := c6_sync_removes_closed_position "2025-10-12" (fun _ => false) stAAA []
    "AAA" posAAA 50 (by simp [stAAA]) rfl rfl rfl
  refine ⟨h.1, h.2.1, h.2.2.1, ?_⟩
  have h50 := h.2.2.2.2 (by
    intro sp hsp hne
    simp only [stAAA, List.mem_singleton] at hsp
    rw [hsp] at hne
    exact absurd rfl hne)
  simpa [stAAA] using h50

/-! ### Association-list lemmas for the tick-processing loop -/

lemma lookup_cons_beq_true {hd : Sym × Position} {tl : List (Sym × Position)}
    {s : Sym} (h : (s == hd.1) = true) : (hd :: tl).lookup s = some hd.2 := by
  rw [List.lookup, h]

lemma lookup_cons_beq_false {hd : Sym × Position} {tl : List (Sym × Position)}
    {s : Sym} (h : (s == hd.1) = false) : (hd :: tl).lookup s = tl.lookup s := by
  rw [List.lookup, h]

lemma lookup_setKey (l : List (Sym × Position)) (k : Sym) (p : Position) (s : Sym) :
    (setKey l k p).lookup s
      = if s = k then (l.lookup k).map (fun _ => p) else l.lookup s := by
  induction l with
  | nil =>
      by_cases hs : s = k <;> simp [setKey, hs]
  | cons hd tl ih =>
      simp only [setKey, List.map_cons] at ih ⊢
      by_cases hk : (hd.1 == k) = true
      · rw [if_pos hk]
        have hk' : hd.1 = k := beq_iff_eq.mp hk
        by_cases hs : s = k
        · have h1 : (s == hd.1) = true := beq_iff_eq.mpr (hs.trans hk'.symm)
          have h2 : (k == hd.1) = true := beq_iff_eq.mpr hk'.symm
          rw [if_pos hs, lookup_cons_beq_true (show (s == (hd.1, p).1) = true from h1),
            lookup_cons_beq_true h2]
          rfl
        · have h1 : (s == hd.1) = false := by
            rw [beq_eq_false_iff_ne, hk']
            exact hs
          rw [if_neg hs, lookup_cons_beq_false (show (s == (hd.1, p).1) = false from h1),
            lookup_cons_beq_false h1, ih, if_neg hs]
      · rw [if_neg hk]
        by_cases hs : s = k
        · have h1 : (s == hd.1) = false := by
            rw [beq_eq_false_iff_ne]
            intro hc
            exact hk (beq_iff_eq.mpr (hc.symm.trans hs))
          have h2 : (k == hd.1) = false := by
            rw [beq_eq_false_iff_ne]
            intro hc
            exact hk (beq_iff_eq.mpr hc.symm)
          rw [if_pos hs, lookup_cons_beq_false h1, lookup_cons_beq_false h2, ih, if_pos hs]
        · cases hsh : (s == hd.1) with
          | true =>
              rw [if_neg hs, lookup_cons_beq_true hsh, lookup_cons_beq_true hsh]
          | false =>
              rw [if_neg hs, lookup_cons_beq_false hsh, lookup_cons_beq_false hsh, ih, if_neg hs]

lemma lookup_filterKey_ne (l : List (Sym × Position)) (x s : Sym) (h : s ≠ x) :
    (l.filter (fun sp => ! (sp.1 == x))).lookup s = l.lookup s := by
  induction l with
  | nil => rfl
  | cons hd tl ih =>
      rw [List.filter_cons]
      cases hhx : (hd.1 == x) with
      | true =>
          have h1 : (s == hd.1) = false := by
            rw [beq_eq_false_iff_ne]
            intro hc
            exact h (hc.trans (beq_iff_eq.mp hhx))
          simp only [hhx, Bool.not_true, Bool.false_eq_true, if_false]
          rw [ih, lookup_cons_beq_false h1]
      | false =>
          simp only [hhx, Bool.not_false, if_true]
          cases hsh : (s == hd.1) with
          | true => rw [lookup_cons_beq_true hsh, lookup_cons_beq_true hsh]
          | false => rw [lookup_cons_beq_false hsh, lookup_cons_beq_false hsh, ih]

lemma lookup_filterKey_self (l : List (Sym × Position)) (x : Sym) :
    (l.filter (fun sp => ! (sp.1 == x))).lookup x = none := by
  apply lookup_none_of_keys_ne
  intro sp hsp
  have hm := List.mem_filter.mp hsp
  intro hc
  rw [hc] at hm
  simp at hm

/-! ### C2: the OCO leg check -/

lemma checkAndCancelOco_foldl (api_orders : List RawOrder)
    (positions : List (Sym × Position)) (acc : List (Sym × Position) × List Event) :
    (positions.foldl
      (fun acc sp =>
        (acc.1 ++ [(sp.1, (checkAndCancelOcoPos api_orders sp.2).1)],
         acc.2 ++ (checkAndCancelOcoPos api_orders sp.2).2))
      acc).1
    = acc.1 ++ positions.map (fun sp => (sp.1, (checkAndCancelOcoPos api_orders sp.2).1)) := by
  induction positions generalizing acc with
  | nil => simp
  | cons hd tl ih =>
      rw [List.foldl_cons, ih, List.map_cons]
      simp

lemma checkAndCancelOco_fst (api_orders : List RawOrder)
    (positions : List (Sym × Position)) :
    (checkAndCancelOco api_orders positions).1
      = positions.map (fun sp => (sp.1, (checkAndCancelOcoPos api_orders sp.2).1)) := by
  rw [checkAndCancelOco, checkAndCancelOco_foldl]
  rfl

lemma checkAndCancelOcoPos_no_complete_live_pair (api_orders : List RawOrder)
    (pos : Position) :
    (¬ (truthyId (checkAndCancelOcoPos api_orders pos).1.stop_loss_order_id = true
        ∧ isCompleteIn api_orders
            ((checkAndCancelOcoPos api_orders pos).1.stop_loss_order_id.getD "") = true
        ∧ truthyId (checkAndCancelOcoPos api_orders pos).1.target_order_id = true
        ∧ isCompleteIn api_orders
            ((checkAndCancelOcoPos api_orders pos).1.target_order_id.getD "") = false))
    ∧ (¬ (truthyId (checkAndCancelOcoPos api_orders pos).1.target_order_id = true
        ∧ isCompleteIn api_orders
            ((checkAndCancelOcoPos api_orders pos).1.target_order_id.getD "") = true
        ∧ truthyId (checkAndCancelOcoPos api_orders pos).1.stop_loss_order_id = true
        ∧ isCompleteIn api_orders
            ((checkAndCancelOcoPos api_orders pos).1.stop_loss_order_id.getD "") = false)) := by
  cases hsl : truthyId pos.stop_loss_order_id <;>
    cases htp : truthyId pos.target_order_id <;>
      cases hslc : isCompleteIn api_orders (pos.stop_loss_order_id.getD "") <;>
        cases htpc : isCompleteIn api_orders (pos.target_order_id.getD "") <;>
          simp [checkAndCancelOcoPos, hsl, htp, hslc, htpc]

/-- **C2 counterexample**: the claim as stated is false on the code.
First input: a position whose stop-loss and target leg ids are both live
(status OPEN) at the broker — `_check_and_cancel_oco_orders` leaves both ids
in place, so after the check the position still holds two simultaneously
non-null, broker-confirmed-live protective order ids.  Second input: both
legs report COMPLETE — the `elif` never runs, so contrary to the claimed
symmetric clause the stop-loss id of the target-complete position is neither
cancelled nor cleared. -/
theorem c2_oco_counterexample :
    ((checkAndCancelOco [⟨"S1", "OPEN"⟩, ⟨"T1", "OPEN"⟩] [("X", posBothLegs)]).1
      = [("X", posBothLegs)]) ∧
    posBothLegs.stop_loss_order_id = some "S1" ∧
    posBothLegs.target_order_id = some "T1" ∧
    (([⟨"S1", "OPEN"⟩, ⟨"T1", "OPEN"⟩] : List RawOrder).any
        (fun o => o.order_id == "S1" && o.status == "OPEN") = true) ∧
    (([⟨"S1", "OPEN"⟩, ⟨"T1", "OPEN"⟩] : List RawOrder).any
        (fun o => o.order_id == "T1" && o.status == "OPEN") = true) ∧
    ((checkAndCancelOco [⟨"S1", "COMPLETE"⟩, ⟨"T1", "COMPLETE"⟩] [("X", posBothLegs)]).1
      = [("X", { posBothLegs with target_order_id := none })]) ∧
    isCompleteIn [⟨"S1", "COMPLETE"⟩, ⟨"T1", "COMPLETE"⟩] "T1" = true ∧
    Event.cancelOrderCall "S1"
      ∉ (checkAndCancelOco [⟨"S1", "COMPLETE"⟩, ⟨"T1", "COMPLETE"⟩]
          [("X", posBothLegs)]).2 := by
  refine ⟨?_, rfl, rfl, rfl, rfl, ?_, rfl, ?_⟩ <;> decide

/-- **C2 amended**: after `_check_and_cancel_oco_orders` completes, no
position pairs a broker-complete protective leg with a live (non-complete,
truthy) opposite leg id: a position whose stop-loss leg is complete has its
target leg cancelled and its id cleared; a position whose target leg is
complete *and whose stop-loss leg is not itself complete* has its stop-loss
leg cancelled and its id cleared.  (Two live legs with neither complete — the
normal bracket state — are untouched, and when both legs are complete only
the target id is cleared, the completed stop-loss id remaining recorded.) -/
theorem c2_oco_amended (api_orders : List RawOrder) (pos : Position)
    (positions : List (Sym × Position)) :
    (truthyId pos.stop_loss_order_id = true →
     isCompleteIn api_orders (pos.stop_loss_order_id.getD "") = true →
     truthyId pos.target_order_id = true →
     (checkAndCancelOcoPos api_orders pos).1.target_order_id = none ∧
     Event.cancelOrderCall (pos.target_order_id.getD "")
       ∈ (checkAndCancelOcoPos api_orders pos).2) ∧
    (truthyId pos.target_order_id = true →
     isCompleteIn api_orders (pos.target_order_id.getD "") = true →
     truthyId pos.stop_loss_order_id = true →
     isCompleteIn api_orders (pos.stop_loss_order_id.getD "") = false →
     (checkAndCancelOcoPos api_orders pos).1.stop_loss_order_id = none ∧
     Event.cancelOrderCall (pos.stop_loss_order_id.getD "")
       ∈ (checkAndCancelOcoPos api_orders pos).2) ∧
    (∀ sp ∈ (checkAndCancelOco api_orders positions).1,
      (¬ (truthyId sp.2.stop_loss_order_id = true
          ∧ isCompleteIn api_orders (sp.2.stop_loss_order_id.getD "") = true
          ∧ truthyId sp.2.target_order_id = true
          ∧ isCompleteIn api_orders (sp.2.target_order_id.getD "") = false))
      ∧ (¬ (truthyId sp.2.target_order_id = true
          ∧ isCompleteIn api_orders (sp.2.target_order_id.getD "") = true
          ∧ truthyId sp.2.stop_loss_order_id = true
          ∧ isCompleteIn api_orders (sp.2.stop_loss_order_id.getD "") = false))) := by
  refine ⟨?_, ?_, ?_⟩
  · intro hsl hslc htp
    have hid : pos.target_order_id.getD "" ≠ "" := by
      rcases htid : pos.target_order_id with _ | tid
      · rw [htid] at htp
        simp [truthyId] at htp
      · rw [htid] at htp
        simpa [truthyId] using htp
    simp [checkAndCancelOcoPos, hsl, hslc, htp, cancelOrderEff, hid]
  · intro htp htpc hsl hslnc
    have hid : pos.stop_loss_order_id.getD "" ≠ "" := by
      rcases hsid : pos.stop_loss_order_id with _ | sid
      · rw [hsid] at hsl
        simp [truthyId] at hsl
      · rw [hsid] at hsl
        simpa [truthyId] using hsl
    simp [checkAndCancelOcoPos, hsl, hslnc, htp, htpc, cancelOrderEff, hid]
  · intro sp hsp
    rw [checkAndCancelOco_fst] at hsp
    rcases List.mem_map.mp hsp with ⟨sp0, _, heq⟩
    have := checkAndCancelOcoPos_no_complete_live_pair api_orders sp0.2
    rw [← heq]
    exact this

/-- Witness for C2 (amended): a bracket whose stop leg completed has its
target leg cancelled and cleared, and the post-pass no-complete-live-pair
invariant holds at the resulting entry. -/
theorem c2_oco_amended_witness :
    ((checkAndCancelOcoPos [⟨"S1", "COMPLETE"⟩] posBothLegs).1.target_order_id = none ∧
     Event.cancelOrderCall "T1" ∈ (checkAndCancelOcoPos [⟨"S1", "COMPLETE"⟩] posBothLegs).2) ∧
    (¬ (truthyId ({ posBothLegs with target_order_id := none } : Position).stop_loss_order_id = true
        ∧ isCompleteIn [⟨"S1", "COMPLETE"⟩]
            (({ posBothLegs with target_order_id := none } : Position).stop_loss_order_id.getD "") = true
        ∧ truthyId ({ posBothLegs with target_order_id := none } : Position).target_order_id = true
        ∧ isCompleteIn [⟨"S1", "COMPLETE"⟩]
            (({ posBothLegs with target_order_id := none } : Position).target_order_id.getD "") = false)) :=
  ⟨(c2_oco_amended [⟨"S1", "COMPLETE"⟩] posBothLegs [("X", posBothLegs)]).1
      (by decide) (by decide) (by decide),
   ((c2_oco_amended [⟨"S1", "COMPLETE"⟩] posBothLegs [("X", posBothLegs)]).2.2
      ("X", { posBothLegs with target_order_id := none }) (by decide)).1⟩

/-! ### C4/C5: the trailing-stop ratchet -/

/-- One tick-processing pass over a single position whose trailing block
fires: the guards hold (trailing distance, stop price and stop order id all
truthy; long, no exit triggered; positive profit; level strictly increased),
cancelling the old stop order succeeds, and the batch carries no tick for the
position.  The pass cancels the old stop order, re-places a stop order at the
ratcheted price, and updates only the stored stop-loss price (and the
recorded stop-order id). -/
@[simp] lemma update_pnl_stop_loss_price (p : Position) (l : ℚ) :
    (p.update_pnl l).stop_loss_price = p.stop_loss_price := rfl

@[simp] lemma update_pnl_trailing (p : Position) (l : ℚ) :
    (p.update_pnl l).trailing_stop_loss = p.trailing_stop_loss := rfl

@[simp] lemma update_pnl_sl_oid (p : Position) (l : ℚ) :
    (p.update_pnl l).stop_loss_order_id = p.stop_loss_order_id := rfl

@[simp] lemma update_pnl_tradingsymbol (p : Position) (l : ℚ) :
    (p.update_pnl l).tradingsymbol = p.tradingsymbol := rfl

@[simp] lemma update_pnl_target_price (p : Position) (l : ℚ) :
    (p.update_pnl l).target_price = p.target_price := rfl

@[simp] lemma update_pnl_quantity (p : Position) (l : ℚ) :
    (p.update_pnl l).quantity = p.quantity := rfl

lemma setKey_mem {l : List (Sym × Position)} {k : Sym} {p : Position}
    {sp' : Sym × Position} (h : sp' ∈ setKey l k p) : sp' ∈ l ∨ sp'.2 = p := by
  unfold setKey at h
  rcases List.mem_map.mp h with ⟨sp, hsp, heq⟩
  by_cases hk : (sp.1 == k) = true
  · right
    rw [if_pos hk] at heq
    rw [← heq]
  · left
    rw [if_neg hk] at heq
    rw [← heq]
    exact hsp

lemma placeStopLossOrder_events (tr : Trader) (p : Position) :
    (placeStopLossOrder tr p).2 = [Event.placeOrderCall (slReq p)] := by
  rcases h : tr.placeOrder (slReq p) with e | o <;> simp [placeStopLossOrder, h]

lemma placeStopLossOrder_frame (tr : Trader) (p : Position) :
    (placeStopLossOrder tr p).1
      = { p with stop_loss_order_id := (placeStopLossOrder tr p).1.stop_loss_order_id } := by
  rcases h : tr.placeOrder (slReq p) with e | o <;> simp [placeStopLossOrder, h]

/-- The `new_sl_price` of the trailing block:
`stop_loss_price + (new_trail_level - current_trail_level) * trailing_stop_loss`. -/
def ratchetPrice (pos : Position) (t sl : ℚ) : ℚ :=
  sl + ((⌊(pos.ltp - pos.average_price) / t⌋
          - ⌊(pos.average_price - sl) / t⌋ : ℤ) : ℚ) * t

/-- The position after the trailing block fired at price `ratchetPrice`. -/
def ratchetedPos (tr : Trader) (pos : Position) (t sl : ℚ) : Position :=
  (placeStopLossOrder tr { pos with stop_loss_price := some (ratchetPrice pos t sl) }).1

lemma trailing_fire_updateBatch (tr : Trader) (s : Sym) (pos : Position)
    (t sl : ℚ) (oid : OrderId) (po : List RawOrder) (r : ℚ) (rp : Bool)
    (h1 : pos.trailing_stop_loss = some t) (h2 : t ≠ 0)
    (h3 : pos.stop_loss_price = some sl) (h4 : sl ≠ 0)
    (h5 : pos.stop_loss_order_id = some oid) (h6 : oid ≠ "")
    (h7 : tr.cancelOrder oid = Except.ok ())
    (hq : 0 < pos.quantity)
    (h8 : ¬ pos.ltp ≤ sl)
    (h9 : pos.target_price = none)
    (h10 : 0 < pos.ltp - pos.average_price)
    (h11 : ⌊(pos.average_price - sl) / t⌋ < ⌊(pos.ltp - pos.average_price) / t⌋) :
    updateBatch tr
        { positions := [(s, pos)], pending_orders := po,
          realized_day_pnl := r, refresh_in_progress := rp } []
      = ({ positions := [(s, ratchetedPos tr pos t sl)], pending_orders := po,
           realized_day_pnl := r, refresh_in_progress := rp },
         [Event.cancelOrderCall oid,
          Event.placeOrderCall (slReq
            { pos with stop_loss_price := some (ratchetPrice pos t sl) })]) := by
  have e1 : exitCondSL pos = false := by
    simp [exitCondSL, h3, h8]
  have e2 : exitCondTP pos = false := by
    simp [exitCondTP, h9]
  have hlk : List.lookup s [(s, pos)] = some pos := by
    simp [List.lookup]
  have hms : modifyStopLoss tr [(s, pos)] s (ratchetPrice pos t sl)
      = ([(s, ratchetedPos tr pos t sl)],
         Event.cancelOrderCall oid
           :: (placeStopLossOrder tr
                { pos with stop_loss_price := some (ratchetPrice pos t sl) }).2) := by
    simp [modifyStopLoss, hlk, h5, h6, h7, ratchetedPos, setKey]
  have g1 : (decide (t ≠ 0) && decide (oid ≠ "") && decide (sl ≠ 0)) = true := by
    simp [h2, h4, h6]
  have d1 : (0 < pos.ltp - pos.average_price) = True := eq_true h10
  have d2 : (⌊(pos.average_price - sl) / t⌋ < ⌊(pos.ltp - pos.average_price) / t⌋) = True :=
    eq_true h11
  simp only [updateBatch, List.map_cons, List.map_nil, List.foldl_cons, List.foldl_nil,
    stepKey, Bool.false_eq_true, if_false, hlk, priceStep, ticksByToken,
    List.filter_nil, List.getLast?, e1, e2, trailStep, h1, h3, h5,
    truthyQ_some, truthyId_some, Option.getD_some, g1, d1, d2, if_true]
  rw [show sl + ((⌊(pos.ltp - pos.average_price) / t⌋
        - ⌊(pos.average_price - sl) / t⌋ : ℤ) : ℚ) * t = ratchetPrice pos t sl from rfl,
    hms]
  simp [placeStopLossOrder_events, h5, h1]

/-- The position invariant that every configured trailing distance is
positive, established by the setters (`update_sl_tp_for_position` and the
order-entry path both map non-positive inputs to `None`). -/
def TrailPos (positions : List (Sym × Position)) : Prop :=
  ∀ sp ∈ positions, ∀ tv : ℚ, sp.2.trailing_stop_loss = some tv → 0 < tv

/-- How one processing step may change a position: the trailing distance is
untouched and the stop-loss price is either untouched or ratcheted upward. -/
def SlStep (pos pos' : Position) : Prop :=
  pos'.trailing_stop_loss = pos.trailing_stop_loss ∧
  (pos'.stop_loss_price = pos.stop_loss_price ∨
    ∃ v v' : ℚ, pos.stop_loss_price = some v ∧ pos'.stop_loss_price = some v' ∧ v ≤ v')

lemma slStep_self (pos : Position) : SlStep pos pos :=
  ⟨rfl, Or.inl rfl⟩

lemma SlStep.trans {a b c : Position} (h1 : SlStep a b) (h2 : SlStep b c) :
    SlStep a c := by
  refine ⟨h2.1.trans h1.1, ?_⟩
  rcases h1.2 with hb | ⟨v, v', hv, hv', hle⟩
  · rcases h2.2 with hc | ⟨w, w', hw, hw', hle'⟩
    · exact Or.inl (hc.trans hb)
    · exact Or.inr ⟨w, w', hb ▸ hw, hw', hle'⟩
  · rcases h2.2 with hc | ⟨w, w', hw, hw', hle'⟩
    · exact Or.inr ⟨v, v', hv, hc.trans hv', hle⟩
    · refine Or.inr ⟨v, w', hv, hw', ?_⟩
      rw [hv'] at hw
      injection hw with hw
      rw [← hw] at hle'
      exact hle.trans hle'

/-- Relation between the position dict at the start of a processing step and
the dict after it: the trailing invariant still holds and every surviving
entry evolved by `SlStep` from its previous value. -/
def StepRel (base cur : List (Sym × Position)) : Prop :=
  TrailPos cur ∧
  ∀ s pos', cur.lookup s = some pos' →
    ∃ pos, base.lookup s = some pos ∧ SlStep pos pos'

lemma stepRel_self {l : List (Sym × Position)} (hT : TrailPos l) : StepRel l l :=
  ⟨hT, fun s pos' h => ⟨pos', h, slStep_self pos'⟩⟩

lemma StepRel.setKeyStep {base l : List (Sym × Position)} {k : Sym} {p : Position}
    (h : StepRel base l) (pos : Position) (hlk : l.lookup k = some pos)
    (hstep : SlStep pos p)
    (hTp : ∀ tv : ℚ, p.trailing_stop_loss = some tv → 0 < tv) :
    StepRel base (setKey l k p) := by
  constructor
  · intro sp' hsp' tv htv
    rcases setKey_mem hsp' with hmem | hval
    · exact h.1 sp' hmem tv htv
    · rw [hval] at htv
      exact hTp tv htv
  · intro s pos' hpos'
    rw [lookup_setKey] at hpos'
    by_cases hs : s = k
    · rw [if_pos hs, hlk] at hpos'
      simp only [Option.map_some'] at hpos'
      injection hpos' with hpos'
      rcases h.2 k pos hlk with ⟨pos₀, hpos₀, hstep₀⟩
      rw [hs]
      exact ⟨pos₀, hpos₀, hstep₀.trans (hpos' ▸ hstep)⟩
    · rw [if_neg hs] at hpos'
      exact h.2 s pos' hpos'

lemma StepRel.filterKey {base l : List (Sym × Position)} {x : Sym}
    (h : StepRel base l) :
    StepRel base (l.filter (fun sp => ! (sp.1 == x))) := by
  constructor
  · intro sp' hsp' tv htv
    exact h.1 sp' (List.mem_of_mem_filter hsp') tv htv
  · intro s pos' hpos'
    by_cases hs : s = x
    · rw [hs, lookup_filterKey_self] at hpos'
      exact absurd hpos' (by simp)
    · rw [lookup_filterKey_ne _ _ _ hs] at hpos'
      exact h.2 s pos' hpos'

lemma priceStep_cases (tbt : Nat → Option Tick) (acc : BatchAcc) (k : Sym)
    (pos0 : Position) :
    ((priceStep tbt acc k pos0).1 = pos0 ∧ (priceStep tbt acc k pos0).2 = acc) ∨
    (∃ l : ℚ, (priceStep tbt acc k pos0).1 = pos0.update_pnl l ∧
      (priceStep tbt acc k pos0).2.positions
        = setKey acc.positions k (pos0.update_pnl l)) := by
  rcases hc : tbt pos0.contract.instrument_token with _ | tick
  · left
    constructor <;> simp [priceStep, hc]
  · by_cases h : |pos0.ltp - tick.last_price.getD pos0.ltp| > 1 / 1000000000
    · right
      refine ⟨tick.last_price.getD pos0.ltp, ?_, ?_⟩ <;>
        simp only [priceStep, hc] <;> rw [if_pos h]
    · left
      constructor <;> simp only [priceStep, hc] <;> rw [if_neg h]

lemma exitPosition_fst_cases (tr : Trader) (p : Position)
    (l : List (Sym × Position)) :
    (exitPosition tr p l).1 = l ∨
    (exitPosition tr p l).1 = l.filter (fun sp => ! (sp.1 == p.tradingsymbol)) := by
  unfold exitPosition
  rcases h : tr.placeOrder (exitReq p) with e | o
  · exact Or.inl rfl
  · unfold removePositionList
    cases hl : l.lookup p.tradingsymbol
    · exact Or.inl rfl
    · exact Or.inr rfl

lemma modifyStopLoss_fst_cases (tr : Trader) (l : List (Sym × Position))
    (k : Sym) (v : ℚ) :
    (modifyStopLoss tr l k v).1 = l ∨
    (∃ posK, l.lookup k = some posK ∧
      (modifyStopLoss tr l k v).1
        = setKey l k ((placeStopLossOrder tr
            { posK with stop_loss_price := some v }).1)) := by
  rcases hl : l.lookup k with _ | posK
  · left
    simp [modifyStopLoss, hl]
  · by_cases ht : truthyId posK.stop_loss_order_id = true
    · rcases hc : tr.cancelOrder (posK.stop_loss_order_id.getD "") with e | u
      · left
        simp [modifyStopLoss, hl, ht, hc]
      · right
        exact ⟨posK, rfl, by simp [modifyStopLoss, hl, ht, hc]⟩
    · left
      simp [modifyStopLoss, hl, ht]

lemma StepRel.modify {base accPpos : List (Sym × Position)} {tr : Trader}
    {k : Sym} {pos1 : Position}
    (hrel : StepRel base accPpos) (hlkP : accPpos.lookup k = some pos1)
    (g1 : (truthyQ pos1.trailing_stop_loss && truthyId pos1.stop_loss_order_id
        && truthyQ pos1.stop_loss_price) = true)
    (g3 : ⌊(pos1.average_price - pos1.stop_loss_price.getD 0)
            / pos1.trailing_stop_loss.getD 0⌋
        < ⌊(pos1.ltp - pos1.average_price) / pos1.trailing_stop_loss.getD 0⌋) :
    StepRel base (modifyStopLoss tr accPpos k
      (pos1.stop_loss_price.getD 0
        + ((⌊(pos1.ltp - pos1.average_price) / pos1.trailing_stop_loss.getD 0⌋
            - ⌊(pos1.average_price - pos1.stop_loss_price.getD 0)
                / pos1.trailing_stop_loss.getD 0⌋ : ℤ) : ℚ)
          * pos1.trailing_stop_loss.getD 0)).1 := by
  rcases modifyStopLoss_fst_cases tr accPpos k
      (pos1.stop_loss_price.getD 0
        + ((⌊(pos1.ltp - pos1.average_price) / pos1.trailing_stop_loss.getD 0⌋
            - ⌊(pos1.average_price - pos1.stop_loss_price.getD 0)
                / pos1.trailing_stop_loss.getD 0⌋ : ℤ) : ℚ)
          * pos1.trailing_stop_loss.getD 0)
    with hm | ⟨posK, hlkQ, hm⟩
  · rw [hm]
    exact hrel
  · have hK : posK = pos1 := by
      rw [hlkP] at hlkQ
      injection hlkQ with h
      exact h.symm
    subst hK
    rw [hm]
    rw [Bool.and_eq_true, Bool.and_eq_true] at g1
    obtain ⟨⟨gt, _⟩, gsl⟩ := g1
    rcases htv : posK.trailing_stop_loss with _ | tv
    · rw [htv] at gt
      simp at gt
    rcases hslv : posK.stop_loss_price with _ | slv
    · rw [hslv] at gsl
      simp at gsl
    have htvpos : 0 < tv :=
      hrel.1 (k, posK) (lookup_mem hlkP) tv htv
    have hgetT : posK.trailing_stop_loss.getD 0 = tv := by rw [htv]; rfl
    have hgetS : posK.stop_loss_price.getD 0 = slv := by rw [hslv]; rfl
    simp only [hgetT, hgetS, Option.getD_some] at g3 ⊢
    have hdiffpos : (0 : ℚ) < ((⌊(posK.ltp - posK.average_price) / tv⌋
        - ⌊(posK.average_price - slv) / tv⌋ : ℤ) : ℚ) * tv := by
      apply mul_pos _ htvpos
      have hz : (0 : ℤ) < ⌊(posK.ltp - posK.average_price) / tv⌋
          - ⌊(posK.average_price - slv) / tv⌋ := by omega
      exact_mod_cast hz
    apply hrel.setKeyStep posK hlkP
    · constructor
      · rw [placeStopLossOrder_frame]
        simp [htv]
      · refine Or.inr ⟨slv,
          slv + ((⌊(posK.ltp - posK.average_price) / tv⌋
              - ⌊(posK.average_price - slv) / tv⌋ : ℤ) : ℚ) * tv,
          hslv, ?_, ?_⟩
        · rw [placeStopLossOrder_frame]
        · linarith
    · intro tv' htv'
      rw [placeStopLossOrder_frame] at htv'
      simp only at htv'
      injection htv' with htv'
      rw [← htv']
      exact htvpos

lemma stepKey_branches (tr : Trader) (base : List (Sym × Position))
    (accP : BatchAcc) (k : Sym) (pos1 : Position)
    (hrelP : StepRel base accP.positions)
    (hlkP : accP.positions.lookup k = some pos1) :
    StepRel base
      (if exitCondSL pos1 then exitStep tr accP pos1
       else if exitCondTP pos1 then exitStep tr accP pos1
       else trailStep tr accP k pos1).positions := by
  have hexit : StepRel base (exitStep tr accP pos1).positions := by
    show StepRel base (exitPosition tr pos1 accP.positions).1
    rcases exitPosition_fst_cases tr pos1 accP.positions with he | he
    · rw [he]
      exact hrelP
    · rw [he]
      exact StepRel.filterKey hrelP
  have htrail : StepRel base (trailStep tr accP k pos1).positions := by
    simp only [trailStep]
    split_ifs with g1 g2 g3
    · exact StepRel.modify hrelP hlkP g1 g3
    · exact hrelP
    · exact hrelP
    · exact hrelP
  split_ifs with c1 c2
  · exact hexit
  · exact hexit
  · exact htrail

lemma StepRel.comp {a b c : List (Sym × Position)}
    (h1 : StepRel a b) (h2 : StepRel b c) : StepRel a c :=
  ⟨h2.1, fun s p' hp' =>
    let ⟨q, hq, hs2⟩ := h2.2 s p' hp'
    let ⟨p, hp, hs1⟩ := h1.2 s q hq
    ⟨p, hp, hs1.trans hs2⟩⟩

lemma stepKey_stepRel (tr : Trader) (tbt : Nat → Option Tick) (acc : BatchAcc)
    (k : Sym) (hT : TrailPos acc.positions) :
    StepRel acc.positions (stepKey tr tbt acc k).positions := by
  by_cases hm : acc.sizeMutated = true
  · simp only [stepKey, hm, if_true]
    exact stepRel_self hT
  · have hm' : acc.sizeMutated = false := by
      cases h : acc.sizeMutated
      · rfl
      · exact absurd h hm
    rcases hlk : acc.positions.lookup k with _ | pos0
    · simp only [stepKey, hm', Bool.false_eq_true, if_false, hlk]
      exact stepRel_self hT
    · simp only [stepKey, hm', Bool.false_eq_true, if_false, hlk]
      rcases priceStep_cases tbt acc k pos0 with ⟨hp1, hp2⟩ | ⟨l, hp1, hp2⟩
      · exact stepKey_branches tr acc.positions _ k _
          (by rw [hp2]; exact stepRel_self hT)
          (by rw [hp2, hp1]; exact hlk)
      · refine stepKey_branches tr acc.positions _ k _ ?_ ?_
        · rw [hp2]
          apply (stepRel_self hT).setKeyStep pos0 hlk
          · exact ⟨rfl, Or.inl rfl⟩
          · intro tv htv
            simp only [update_pnl_trailing] at htv
            exact hT (k, pos0) (lookup_mem hlk) tv htv
        · rw [hp2, hp1, lookup_setKey, if_pos rfl, hlk]
          rfl

lemma foldl_stepKey_stepRel (tr : Trader) (tbt : Nat → Option Tick)
    (keys : List Sym) (acc : BatchAcc) (hT : TrailPos acc.positions) :
    StepRel acc.positions (keys.foldl (stepKey tr tbt) acc).positions := by
  induction keys generalizing acc with
  | nil => exact stepRel_self hT
  | cons k ks ih =>
      rw [List.foldl_cons]
      have h1 := stepKey_stepRel tr tbt acc k hT
      exact h1.comp (ih (stepKey tr tbt acc k) h1.1)

lemma updateBatch_stepRel (tr : Trader) (st : PMState) (ticks : List Tick)
    (hT : TrailPos st.positions) :
    StepRel st.positions (updateBatch tr st ticks).1.positions := by
  simp only [updateBatch]
  exact foldl_stepKey_stepRel tr (ticksByToken ticks) (st.positions.map Prod.fst)
    { positions := st.positions, events := [], updated := false, sizeMutated := false } hT

lemma runBatches_fst (st : PMState) (batches : List (Trader × List Tick)) :
    (runBatches st batches).1
      = batches.foldl (fun s b => (updateBatch b.1 s b.2).1) st := by
  suffices h : ∀ (st : PMState) (ev : List Event),
      (batches.foldl
        (fun acc b => ((updateBatch b.1 acc.1 b.2).1, acc.2 ++ (updateBatch b.1 acc.1 b.2).2))
        (st, ev)).1
        = batches.foldl (fun s b => (updateBatch b.1 s b.2).1) st by
    exact h st []
  induction batches with
  | nil => intro st ev; rfl
  | cons b bs ih =>
      intro st ev
      rw [List.foldl_cons, List.foldl_cons]
      exact ih _ _

lemma runBatches_stepRel (st : PMState) (batches : List (Trader × List Tick))
    (hT : TrailPos st.positions) :
    StepRel st.positions (runBatches st batches).1.positions := by
  rw [runBatches_fst]
  induction batches generalizing st with
  | nil => exact stepRel_self hT
  | cons b bs ih =>
      rw [List.foldl_cons]
      have h1 := updateBatch_stepRel b.1 st b.2 hT
      exact h1.comp (ih _ h1.1)

lemma ratchetedPos_sl (tr : Trader) (pos : Position) (t sl : ℚ) :
    (ratchetedPos tr pos t sl).stop_loss_price = some (ratchetPrice pos t sl) := by
  rw [ratchetedPos, placeStopLossOrder_frame]

/-- **C4 counterexample**: a long position with a configured trailing
distance (5) and an existing stop-loss price (95), in profit by two whole
increments more than the stop reflects, yet with no live stop-loss order id:
the claim says the stop-loss price is raised by (level difference × distance)
to 100, but a tick-processing pass leaves the position — in particular its
stop-loss price of 95 — completely unchanged, because the trailing block also
requires `stop_loss_order_id` to be truthy. -/
theorem c4_trailing_counterexample :
    posTrailNoOid.trailing_stop_loss = some 5 ∧
    posTrailNoOid.stop_loss_price = some 95 ∧
    posTrailNoOid.stop_loss_order_id = none ∧
    (0 : ℤ) < posTrailNoOid.quantity ∧
    (0 : ℚ) < posTrailNoOid.ltp - posTrailNoOid.average_price ∧
    ⌊(posTrailNoOid.average_price - 95) / (5 : ℚ)⌋
      < ⌊(posTrailNoOid.ltp - posTrailNoOid.average_price) / (5 : ℚ)⌋ ∧
    (updateBatch traderOk stTrailNoOid []).1.positions = [("X", posTrailNoOid)] ∧
    ratchetPrice posTrailNoOid 5 95 = 100 := by
  refine ⟨rfl, rfl, rfl, by decide, ?_, ?_, by decide, ?_⟩
  · norm_num [posTrailNoOid, basePos]
  · norm_num [posTrailNoOid, basePos]
  · norm_num [ratchetPrice, posTrailNoOid, basePos]

/-- **C4 (amended)**: for every long position with a configured positive
trailing distance, an existing stop-loss price, *and a live stop-loss order
id whose broker-side cancellation succeeds*, when unrealized points are
positive and the whole trailing-distance increments of accrued profit exceed
the increments already reflected in the stop-loss price, a tick-processing
pass raises the stop-loss price by exactly (level difference × trailing
distance) — a strict increase; and across any sequence of tick batches the
stop-loss price of a surviving position never decreases (the trailing logic
never lowers it). -/
theorem c4_trailing_ratchet_monotone :
    (∀ (tr : Trader) (s : Sym) (pos : Position) (t sl : ℚ) (oid : OrderId)
        (po : List RawOrder) (r : ℚ) (rp : Bool),
      pos.trailing_stop_loss = some t → 0 < t →
      pos.stop_loss_price = some sl → sl ≠ 0 →
      pos.stop_loss_order_id = some oid → oid ≠ "" →
      tr.cancelOrder oid = Except.ok () →
      0 < pos.quantity → ¬ pos.ltp ≤ sl → pos.target_price = none →
      0 < pos.ltp - pos.average_price →
      ⌊(pos.average_price - sl) / t⌋ < ⌊(pos.ltp - pos.average_price) / t⌋ →
      ((updateBatch tr
          { positions := [(s, pos)], pending_orders := po,
            realized_day_pnl := r, refresh_in_progress := rp } []).1.positions.map
          (fun sp => (sp.1, sp.2.stop_loss_price)))
        = [(s, some (ratchetPrice pos t sl))] ∧
      sl < ratchetPrice pos t sl) ∧
    (∀ (st : PMState) (batches : List (Trader × List Tick)) (s : Sym)
        (pos pos' : Position) (v : ℚ),
      TrailPos st.positions →
      st.positions.lookup s = some pos →
      (runBatches st batches).1.positions.lookup s = some pos' →
      pos.stop_loss_price = some v →
      ∃ v', pos'.stop_loss_price = some v' ∧ v ≤ v') := by
  constructor
  · intro tr s pos t sl oid po r rp h1 ht h3 h4 h5 h6 h7 hq h8 h9 h10 h11
    have heq := trailing_fire_updateBatch tr s pos t sl oid po r rp h1
      (ne_of_gt ht) h3 h4 h5 h6 h7 hq h8 h9 h10 h11
    constructor
    · rw [heq]
      simp [ratchetedPos_sl]
    · have hz : (0 : ℤ) < ⌊(pos.ltp - pos.average_price) / t⌋
          - ⌊(pos.average_price - sl) / t⌋ := by omega
      have hd : (0 : ℚ) < ((⌊(pos.ltp - pos.average_price) / t⌋
          - ⌊(pos.average_price - sl) / t⌋ : ℤ) : ℚ) * t := by
        apply mul_pos _ ht
        exact_mod_cast hz
      unfold ratchetPrice
      linarith
  · intro st batches s pos pos' v hT hlk hlk' hsl
    rcases (runBatches_stepRel st batches hT).2 s pos' hlk' with ⟨pos₀, hlk₀, hstep⟩
    rw [hlk] at hlk₀
    injection hlk₀ with hlk₀
    subst hlk₀
    rcases hstep.2 with heq | ⟨w, w', hw, hw', hle⟩
    · exact ⟨v, heq.trans hsl, le_refl v⟩
    · rw [hsl] at hw
      injection hw with hw
      exact ⟨w', hw', hw ▸ hle⟩

/-- Witness for C4 (amended): the ratchet fires on the concrete position
(avg 100, ltp 110, stop 95, distance 5, live stop order `SL1`) raising the
stop to 100, and the monotonicity conjunct instantiated at the same store. -/
theorem c4_trailing_ratchet_monotone_witness :
    (((updateBatch traderOk stTrailOid []).1.positions.map
        (fun sp => (sp.1, sp.2.stop_loss_price)))
      = [("X", some (ratchetPrice posTrailOid 5 95))] ∧
      (95 : ℚ) < ratchetPrice posTrailOid 5 95) ∧
    (∃ v', posTrailOid.stop_loss_price = some v' ∧ (95 : ℚ) ≤ v') := by
  have hT : TrailPos stTrailOid.positions := by
    intro sp hsp tv htv
    simp only [stTrailOid, List.mem_singleton] at hsp
    rw [hsp] at htv
    have : (5 : ℚ) = tv := by injection htv
    rw [← this]
    norm_num
  constructor
  · exact c4_trailing_ratchet_monotone.1 traderOk "X" posTrailOid 5 95 "SL1"
      [] 0 false rfl (by norm_num) rfl (by norm_num) rfl (by decide) rfl
      (by decide) (by norm_num [posTrailOid, posTrailNoOid, basePos])
      rfl (by norm_num [posTrailOid, posTrailNoOid, basePos])
      (by norm_num [posTrailOid, posTrailNoOid, basePos])
  · exact c4_trailing_ratchet_monotone.2 stTrailOid [] "X" posTrailOid
      posTrailOid 95 hT rfl rfl rfl

/-- **C5 counterexample**: when the trailing ratchet fires (position with a
live stop order `SL1`, stop 95, distance 5, ltp 110, avg 100), the pass is
*not* local-only: it issues a broker cancel of `SL1` and places a replacement
SL order at the ratcheted price 100 through the execution interface. -/
theorem c5_trailing_not_local_counterexample :
    ((updateBatch traderOk stTrailOid []).1.positions.lookup "X").map
        (fun p => p.stop_loss_price) = some (some 100) ∧
    (updateBatch traderOk stTrailOid []).2
      = [Event.cancelOrderCall "SL1",
         Event.placeOrderCall
           { variety := "regular", exchange := "NFO", tradingsymbol := "X",
             transaction_type := "SELL", quantity := 50, product := "MIS",
             order_type := "SL", price := some 100, trigger_price := some 100 }] ∧
    Event.cancelOrderCall "SL1" ∈ (updateBatch traderOk stTrailOid []).2 := by
  have heq := trailing_fire_updateBatch traderOk "X" posTrailOid 5 95 "SL1" [] 0 false
    rfl (by norm_num) rfl (by norm_num) rfl (by decide) rfl (by decide)
    (by norm_num [posTrailOid, posTrailNoOid, basePos]) rfl
    (by norm_num [posTrailOid, posTrailNoOid, basePos])
    (by norm_num [posTrailOid, posTrailNoOid, basePos])
  have hst : stTrailOid
      = { positions := [("X", posTrailOid)], pending_orders := [],
          realized_day_pnl := 0, refresh_in_progress := false } := rfl
  have hrp : ratchetPrice posTrailOid 5 95 = 100 := by
    norm_num [ratchetPrice, posTrailOid, posTrailNoOid, basePos]
  have h2 : (updateBatch traderOk stTrailOid []).2
      = [Event.cancelOrderCall "SL1",
         Event.placeOrderCall
           { variety := "regular", exchange := "NFO", tradingsymbol := "X",
             transaction_type := "SELL", quantity := 50, product := "MIS",
             order_type := "SL", price := some 100, trigger_price := some 100 }] := by
    rw [hst, heq]
    simp only [hrp]
    norm_num [slReq, posTrailOid, posTrailNoOid, basePos]
  refine ⟨?_, h2, ?_⟩
  · rw [hst, heq]
    simp [List.lookup, ratchetedPos_sl, hrp]
  · rw [h2]
    exact List.mem_cons_self _ _

/-- **C5 (amended)**: when the trailing ratchet fires during tick processing
(which requires a live stop-loss order id and a successful broker cancel),
the adjustment is not local-only: the pass cancels the old stop order and
places a replacement stop (SL) order at the new price through the execution
interface — exactly those two order operations, no market-sell and no
target-leg operation — while the only state change to the position is its
stored stop-loss price (and the recorded stop-order id). -/
theorem c5_trailing_replaces_broker_stop (tr : Trader) (s : Sym) (pos : Position)
    (t sl : ℚ) (oid : OrderId) (po : List RawOrder) (r : ℚ) (rp : Bool)
    (h1 : pos.trailing_stop_loss = some t) (h2 : 0 < t)
    (h3 : pos.stop_loss_price = some sl) (h4 : sl ≠ 0)
    (h5 : pos.stop_loss_order_id = some oid) (h6 : oid ≠ "")
    (h7 : tr.cancelOrder oid = Except.ok ())
    (hq : 0 < pos.quantity)
    (h8 : ¬ pos.ltp ≤ sl)
    (h9 : pos.target_price = none)
    (h10 : 0 < pos.ltp - pos.average_price)
    (h11 : ⌊(pos.average_price - sl) / t⌋ < ⌊(pos.ltp - pos.average_price) / t⌋) :
    (updateBatch tr
        { positions := [(s, pos)], pending_orders := po,
          realized_day_pnl := r, refresh_in_progress := rp } []).2
      = [Event.cancelOrderCall oid,
         Event.placeOrderCall (slReq
           { pos with stop_loss_price := some (ratchetPrice pos t sl) })] ∧
    (slReq { pos with stop_loss_price := some (ratchetPrice pos t sl) }).order_type
      = "SL" ∧
    ((updateBatch tr
        { positions := [(s, pos)], pending_orders := po,
          realized_day_pnl := r, refresh_in_progress := rp } []).1.positions.map
        (fun sp => (sp.1, { sp.2 with stop_loss_order_id := pos.stop_loss_order_id })))
      = [(s, { pos with stop_loss_price := some (ratchetPrice pos t sl) })] := by
  have heq := trailing_fire_updateBatch tr s pos t sl oid po r rp h1
    (ne_of_gt h2) h3 h4 h5 h6 h7 hq h8 h9 h10 h11
  refine ⟨?_, rfl, ?_⟩
  · rw [heq]
  · rw [heq]
    simp only [List.map_cons, List.map_nil]
    rw [ratchetedPos, placeStopLossOrder_frame]

/-- Witness for C5 (amended) at the concrete firing scenario. -/
theorem c5_trailing_replaces_broker_stop_witness :
    (updateBatch traderOk stTrailOid []).2
      = [Event.cancelOrderCall "SL1",
         Event.placeOrderCall (slReq
           { posTrailOid with
              stop_loss_price := some (ratchetPrice posTrailOid 5 95) })] ∧
    (slReq { posTrailOid with
        stop_loss_price := some (ratchetPrice posTrailOid 5 95) }).order_type = "SL" ∧
    ((updateBatch traderOk stTrailOid []).1.positions.map
        (fun sp => (sp.1, { sp.2 with
            stop_loss_order_id := posTrailOid.stop_loss_order_id })))
      = [("X", { posTrailOid with
            stop_loss_price := some (ratchetPrice posTrailOid 5 95) })] :=
  c5_trailing_replaces_broker_stop traderOk "X" posTrailOid 5 95 "SL1" [] 0 false
    rfl (by norm_num) rfl (by norm_num) rfl (by decide) rfl (by decide)
    (by norm_num [posTrailOid, posTrailNoOid, basePos]) rfl
    (by norm_num [posTrailOid, posTrailNoOid, basePos])
    (by norm_num [posTrailOid, posTrailNoOid, basePos])

/-! ### C1: exit exclusivity -/

/-- Does an event record a market-sell exit submission for symbol `s`?
`exit_position` is the only caller that submits a MARKET order; the
protective stop orders are SL orders. -/
def isExitSubmitFor (s : Sym) : Event → Bool
  | Event.placeOrderCall req => req.tradingsymbol == s && req.order_type == "MARKET"
  | _ => false

/-- Well-formedness of the position dict maintained by `PositionManager`:
keys are unique (it is a Python dict) and every position is stored under its
own `tradingsymbol` (all writers index with `position.tradingsymbol`). -/
def KeysOk (positions : List (Sym × Position)) : Prop :=
  (positions.map Prod.fst).Nodup ∧ ∀ sp ∈ positions, sp.2.tradingsymbol = sp.1

@[simp] lemma isExitSubmitFor_exitReq (s : Sym) (pos : Position) :
    isExitSubmitFor s (Event.placeOrderCall (exitReq pos))
      = (pos.tradingsymbol == s) := by
  simp [isExitSubmitFor, exitReq]

@[simp] lemma isExitSubmitFor_slReq (s : Sym) (pos : Position) :
    isExitSubmitFor s (Event.placeOrderCall (slReq pos)) = false := by
  have h : ("SL" == "MARKET") = false := by decide
  simp [isExitSubmitFor, slReq, h]

@[simp] lemma isExitSubmitFor_cancel (s : Sym) (oid : OrderId) :
    isExitSubmitFor s (Event.cancelOrderCall oid) = false := rfl

@[simp] lemma isExitSubmitFor_removed (s x : Sym) :
    isExitSubmitFor s (Event.positionRemoved x) = false := rfl

@[simp] lemma isExitSubmitFor_updated (s : Sym) :
    isExitSubmitFor s Event.positionsUpdated = false := rfl

@[simp] lemma isExitSubmitFor_priceUpdate (s x : Sym) :
    isExitSubmitFor s (Event.priceUpdate x) = false := rfl

lemma setKey_keys (l : List (Sym × Position)) (k : Sym) (p : Position) :
    (setKey l k p).map Prod.fst = l.map Prod.fst := by
  unfold setKey
  rw [List.map_map]
  apply List.map_congr_left
  intro sp _
  simp only [Function.comp_apply]
  by_cases h : (sp.1 == k) = true
  · rw [if_pos h]
  · rw [if_neg h]

lemma setKey_mem' {l : List (Sym × Position)} {k : Sym} {p : Position}
    {sp' : Sym × Position} (h : sp' ∈ setKey l k p) :
    sp' ∈ l ∨ (sp'.1 = k ∧ sp'.2 = p) := by
  unfold setKey at h
  rcases List.mem_map.mp h with ⟨sp, hsp, heq⟩
  by_cases hk : (sp.1 == k) = true
  · right
    rw [if_pos hk] at heq
    rw [← heq]
    exact ⟨beq_iff_eq.mp hk, rfl⟩
  · left
    rw [if_neg hk] at heq
    rw [← heq]
    exact hsp

lemma keys_ne_of_lookup_none {l : List (Sym × Position)} {s : Sym}
    (h : l.lookup s = none) : ∀ sp ∈ l, sp.1 ≠ s := by
  induction l with
  | nil =>
      intro sp hsp
      simp at hsp
  | cons hd tl ih =>
      intro sp hsp
      cases hbeq : (s == hd.1) with
      | true =>
          rw [lookup_cons_beq_true hbeq] at h
          exact absurd h (by simp)
      | false =>
          rw [lookup_cons_beq_false hbeq] at h
          rcases List.mem_cons.mp hsp with he | hm
          · rw [he]
            intro hc
            exact (beq_eq_false_iff_ne.mp hbeq) hc.symm
          · exact ih h sp hm

lemma lookup_none_setKey {l : List (Sym × Position)} {k s : Sym} {p : Position}
    (h : l.lookup s = none) : (setKey l k p).lookup s = none := by
  rw [lookup_setKey]
  by_cases hs : s = k
  · rw [if_pos hs, ← hs, h, Option.map_none']
  · rw [if_neg hs]
    exact h

lemma lookup_none_filter {l : List (Sym × Position)} {s : Sym}
    (h : l.lookup s = none) (f : Sym × Position → Bool) :
    (l.filter f).lookup s = none := by
  apply lookup_none_of_keys_ne
  intro sp hsp
  exact keys_ne_of_lookup_none h sp (List.mem_of_mem_filter hsp)

lemma keysOk_setKey {l : List (Sym × Position)} {k : Sym} {p : Position}
    (hK : KeysOk l) (hts : p.tradingsymbol = k) : KeysOk (setKey l k p) := by
  constructor
  · rw [setKey_keys]
    exact hK.1
  · intro sp' hsp'
    rcases setKey_mem' hsp' with hmem | ⟨h1, h2⟩
    · exact hK.2 sp' hmem
    · rw [h2, hts, h1]

lemma keysOk_filter {l : List (Sym × Position)} (hK : KeysOk l)
    (f : Sym × Position → Bool) : KeysOk (l.filter f) := by
  constructor
  · exact hK.1.sublist ((List.filter_sublist l).map Prod.fst)
  · intro sp hsp
    exact hK.2 sp (List.mem_of_mem_filter hsp)

/-- Full characterization of the price/P&L step: either nothing changes, or
the entry under `k` is rewritten by `update_pnl` and exactly one
`priceUpdate k` event is appended. -/
lemma priceStep_acc_cases (tbt : Nat → Option Tick) (acc : BatchAcc) (k : Sym)
    (pos0 : Position) :
    ((priceStep tbt acc k pos0).1 = pos0 ∧ (priceStep tbt acc k pos0).2 = acc) ∨
    (∃ l : ℚ, (priceStep tbt acc k pos0).1 = pos0.update_pnl l ∧
      (priceStep tbt acc k pos0).2
        = { acc with positions := setKey acc.positions k (pos0.update_pnl l),
                     events := acc.events ++ [Event.priceUpdate k],
                     updated := true }) := by
  rcases hc : tbt pos0.contract.instrument_token with _ | tick
  · left
    constructor <;> simp [priceStep, hc]
  · by_cases h : |pos0.ltp - tick.last_price.getD pos0.ltp| > 1 / 1000000000
    · right
      refine ⟨tick.last_price.getD pos0.ltp, ?_, ?_⟩ <;>
        simp only [priceStep, hc] <;> rw [if_pos h]
    · left
      constructor <;> simp only [priceStep, hc] <;> rw [if_neg h]

/-- Full characterization of `exit_position`: on submission failure (or a
vacuous removal) the dict is untouched and the trace is just the market-sell
submission; on success the entry is removed and the removal events follow the
submission. -/
lemma exitPosition_cases (tr : Trader) (p : Position)
    (l : List (Sym × Position)) :
    ((exitPosition tr p l).1 = l ∧
      (exitPosition tr p l).2.1 = [Event.placeOrderCall (exitReq p)]) ∨
    (∃ posR, l.lookup p.tradingsymbol = some posR ∧
      (exitPosition tr p l).1 = l.filter (fun sp => ! (sp.1 == p.tradingsymbol)) ∧
      (exitPosition tr p l).2.1
        = Event.placeOrderCall (exitReq p)
            :: ((cancelPendingLegs posR).2
                ++ [Event.positionRemoved p.tradingsymbol, Event.positionsUpdated])) := by
  rcases h : tr.placeOrder (exitReq p) with e | o
  · left
    constructor <;> simp [exitPosition, h]
  · rcases hl : l.lookup p.tradingsymbol with _ | posR
    · left
      constructor <;> simp [exitPosition, removePositionList, h, hl]
    · right
      exact ⟨posR, rfl, by simp [exitPosition, removePositionList, h, hl],
        by simp [exitPosition, removePositionList, h, hl]⟩

/-- Full characterization of `modify_stop_loss`: either the dict is untouched
(missing key, no live stop order id, or cancel failure — trace empty or a
single cancel), or the stop order is replaced: one cancel followed by one SL
placement, and the entry is rewritten through `place_stop_loss_order`. -/
lemma modifyStopLoss_cases (tr : Trader) (l : List (Sym × Position))
    (k : Sym) (v : ℚ) :
    ((modifyStopLoss tr l k v).1 = l ∧
      ((modifyStopLoss tr l k v).2 = [] ∨
        ∃ oid, (modifyStopLoss tr l k v).2 = [Event.cancelOrderCall oid])) ∨
    (∃ posK, l.lookup k = some posK ∧
      (modifyStopLoss tr l k v).1
        = setKey l k ((placeStopLossOrder tr
            { posK with stop_loss_price := some v }).1) ∧
      (modifyStopLoss tr l k v).2
        = [Event.cancelOrderCall (posK.stop_loss_order_id.getD ""),
           Event.placeOrderCall (slReq { posK with stop_loss_price := some v })]) := by
  rcases hl : l.lookup k with _ | posK
  · left
    refine ⟨by simp [modifyStopLoss, hl], Or.inl (by simp [modifyStopLoss, hl])⟩
  · by_cases ht : truthyId posK.stop_loss_order_id = true
    · rcases hc : tr.cancelOrder (posK.stop_loss_order_id.getD "") with e | u
      · left
        refine ⟨by simp [modifyStopLoss, hl, ht, hc],
          Or.inr ⟨posK.stop_loss_order_id.getD "", by simp [modifyStopLoss, hl, ht, hc]⟩⟩
      · right
        refine ⟨posK, rfl, by simp [modifyStopLoss, hl, ht, hc], ?_⟩
        simp [modifyStopLoss, hl, ht, hc, placeStopLossOrder_events]
    · left
      refine ⟨by simp [modifyStopLoss, hl, ht], Or.inl (by simp [modifyStopLoss, hl, ht])⟩

/-- C1 facts about one `exit_position` call made from the tick loop: keys
stay well-formed, an absent symbol stays absent, the appended trace holds at
most one exit submission — for the position's own symbol — no price-update
event, and a removal notification for `s` certifies `s` is gone. -/
lemma exitStep_c1 (tr : Trader) (acc : BatchAcc) (pos1 : Position) (s : Sym)
    (hK : KeysOk acc.positions) :
    KeysOk (exitStep tr acc pos1).positions ∧
    (acc.positions.lookup s = none →
      (exitStep tr acc pos1).positions.lookup s = none) ∧
    ∃ Δ, (exitStep tr acc pos1).events = acc.events ++ Δ ∧
      Δ.countP (isExitSubmitFor s) ≤ (if pos1.tradingsymbol = s then 1 else 0) ∧
      Event.priceUpdate s ∉ Δ ∧
      (Event.positionRemoved s ∈ Δ →
        (exitStep tr acc pos1).positions.lookup s = none) := by
  have hpos : (exitStep tr acc pos1).positions
      = (exitPosition tr pos1 acc.positions).1 := rfl
  have hev : (exitStep tr acc pos1).events
      = acc.events ++ (exitPosition tr pos1 acc.positions).2.1 := rfl
  rcases exitPosition_cases tr pos1 acc.positions with ⟨h1, h2⟩ | ⟨posR, hlkR, h1, h2⟩
  · refine ⟨?_, ?_, [Event.placeOrderCall (exitReq pos1)], ?_, ?_, ?_, ?_⟩
    · rw [hpos, h1]
      exact hK
    · intro h
      rw [hpos, h1]
      exact h
    · rw [hev, h2]
    · by_cases hs : pos1.tradingsymbol = s <;>
        simp [List.countP_cons, hs]
    · simp
    · intro hmem
      simp at hmem
  · refine ⟨?_, ?_, Event.placeOrderCall (exitReq pos1)
        :: ((cancelPendingLegs posR).2
            ++ [Event.positionRemoved pos1.tradingsymbol, Event.positionsUpdated]),
        ?_, ?_, ?_, ?_⟩
    · rw [hpos, h1]
      exact keysOk_filter hK _
    · intro h
      rw [hpos, h1]
      exact lookup_none_filter h _
    · rw [hev, h2]
    · have hc : ((cancelPendingLegs posR).2).countP (isExitSubmitFor s) = 0 := by
        rw [List.countP_eq_zero]
        intro e he
        rcases cancelPendingLegs_events_are_cancels posR e he with ⟨oid, rfl⟩
        simp
      rw [List.countP_cons, List.countP_append, hc, List.countP_cons,
        List.countP_cons, List.countP_nil]
      by_cases hs : pos1.tradingsymbol = s <;> simp [hs]
    · intro hmem
      rcases List.mem_cons.mp hmem with he | hmem2
      · exact Event.noConfusion he
      rcases List.mem_append.mp hmem2 with hc | ht
      · rcases cancelPendingLegs_events_are_cancels posR _ hc with ⟨oid, heq⟩
        exact Event.noConfusion heq
      · rcases List.mem_cons.mp ht with he2 | ht2
        · exact Event.noConfusion he2
        · rcases List.mem_cons.mp ht2 with he3 | h3
          · exact Event.noConfusion he3
          · simp at h3
    · intro hmem
      rw [hpos, h1]
      by_cases hs : s = pos1.tradingsymbol
      · rw [hs]
        exact lookup_filterKey_self _ _
      · exfalso
        rcases List.mem_cons.mp hmem with he | hmem2
        · exact Event.noConfusion he
        rcases List.mem_append.mp hmem2 with hc | ht
        · rcases cancelPendingLegs_events_are_cancels posR _ hc with ⟨oid, heq⟩
          exact Event.noConfusion heq
        · rcases List.mem_cons.mp ht with he2 | ht2
          · injection he2 with hss
            exact hs hss
          · rcases List.mem_cons.mp ht2 with he3 | h3
            · exact Event.noConfusion he3
            · simp at h3

/-- C1 facts about one `modify_stop_loss` call: keys stay well-formed, an
absent symbol stays absent, and the appended trace holds no exit submission,
no price-update event and no removal notification. -/
lemma modifyStopLoss_c1 (tr : Trader) (l : List (Sym × Position)) (k : Sym)
    (v : ℚ) (s : Sym) (hK : KeysOk l) :
    KeysOk (modifyStopLoss tr l k v).1 ∧
    (l.lookup s = none → (modifyStopLoss tr l k v).1.lookup s = none) ∧
    (modifyStopLoss tr l k v).2.countP (isExitSubmitFor s) = 0 ∧
    Event.priceUpdate s ∉ (modifyStopLoss tr l k v).2 ∧
    Event.positionRemoved s ∉ (modifyStopLoss tr l k v).2 := by
  rcases modifyStopLoss_cases tr l k v with ⟨h1, h2⟩ | ⟨posK, hlk, h1, h2⟩
  · refine ⟨by rw [h1]; exact hK, fun h => by rw [h1]; exact h, ?_, ?_, ?_⟩ <;>
      rcases h2 with h2 | ⟨oid, h2⟩ <;> rw [h2] <;> simp
  · have hts : posK.tradingsymbol = k := hK.2 (k, posK) (lookup_mem hlk)
    refine ⟨?_, ?_, ?_, ?_, ?_⟩
    · rw [h1]
      apply keysOk_setKey hK
      rw [placeStopLossOrder_frame]
      exact hts
    · intro h
      rw [h1]
      exact lookup_none_setKey h
    · rw [h2]
      simp [List.countP_cons]
    · rw [h2]
      simp
    · rw [h2]
      simp

/-- The trailing block either leaves the accumulator alone or performs one
`modify_stop_loss` call at some ratcheted price. -/
lemma trailStep_cases (tr : Trader) (acc : BatchAcc) (k : Sym)
    (pos1 : Position) :
    trailStep tr acc k pos1 = acc ∨
    ∃ v, trailStep tr acc k pos1
      = { acc with positions := (modifyStopLoss tr acc.positions k v).1,
                   events := acc.events ++ (modifyStopLoss tr acc.positions k v).2 } := by
  simp only [trailStep]
  split_ifs
  · right
    exact ⟨_, rfl⟩
  · left
    rfl
  · left
    rfl
  · left
    rfl

/-- C1 facts about the trailing block of one loop iteration. -/
lemma trailStep_c1 (tr : Trader) (acc : BatchAcc) (k : Sym) (pos1 : Position)
    (s : Sym) (hK : KeysOk acc.positions) :
    KeysOk (trailStep tr acc k pos1).positions ∧
    (acc.positions.lookup s = none →
      (trailStep tr acc k pos1).positions.lookup s = none) ∧
    ∃ Δ, (trailStep tr acc k pos1).events = acc.events ++ Δ ∧
      Δ.countP (isExitSubmitFor s) = 0 ∧
      Event.priceUpdate s ∉ Δ ∧
      Event.positionRemoved s ∉ Δ := by
  rcases trailStep_cases tr acc k pos1 with h | ⟨v, h⟩
  · rw [h]
    exact ⟨hK, fun hh => hh, [], (List.append_nil _).symm, rfl, by simp, by simp⟩
  · rw [h]
    obtain ⟨a, b, c1, c2, c3⟩ := modifyStopLoss_c1 tr acc.positions k v s hK
    exact ⟨a, b, (modifyStopLoss tr acc.positions k v).2, rfl, c1, c2, c3⟩

/-- C1 facts about the exit/trailing branches of one loop iteration, after
the price step: at most one exit submission, only for the iteration's own
key, no price-update event, removal certifies absence. -/
lemma stepKeyBranches_c1 (tr : Trader) (accP : BatchAcc) (k s : Sym)
    (pos1 : Position) (hKP : KeysOk accP.positions)
    (hts1 : pos1.tradingsymbol = k) :
    KeysOk (if exitCondSL pos1 then exitStep tr accP pos1
            else if exitCondTP pos1 then exitStep tr accP pos1
            else trailStep tr accP k pos1).positions ∧
    (accP.positions.lookup s = none →
      (if exitCondSL pos1 then exitStep tr accP pos1
       else if exitCondTP pos1 then exitStep tr accP pos1
       else trailStep tr accP k pos1).positions.lookup s = none) ∧
    ∃ Δ, (if exitCondSL pos1 then exitStep tr accP pos1
          else if exitCondTP pos1 then exitStep tr accP pos1
          else trailStep tr accP k pos1).events = accP.events ++ Δ ∧
      Δ.countP (isExitSubmitFor s) ≤ (if k = s then 1 else 0) ∧
      Event.priceUpdate s ∉ Δ ∧
      (Event.positionRemoved s ∈ Δ →
        (if exitCondSL pos1 then exitStep tr accP pos1
         else if exitCondTP pos1 then exitStep tr accP pos1
         else trailStep tr accP k pos1).positions.lookup s = none) := by
  have hexit : KeysOk (exitStep tr accP pos1).positions ∧
      (accP.positions.lookup s = none →
        (exitStep tr accP pos1).positions.lookup s = none) ∧
      ∃ Δ, (exitStep tr accP pos1).events = accP.events ++ Δ ∧
        Δ.countP (isExitSubmitFor s) ≤ (if k = s then 1 else 0) ∧
        Event.priceUpdate s ∉ Δ ∧
        (Event.positionRemoved s ∈ Δ →
          (exitStep tr accP pos1).positions.lookup s = none) := by
    obtain ⟨a, b, Δ, hev, hcount, hpu, hpr⟩ := exitStep_c1 tr accP pos1 s hKP
    rw [hts1] at hcount
    exact ⟨a, b, Δ, hev, hcount, hpu, hpr⟩
  have htrail : KeysOk (trailStep tr accP k pos1).positions ∧
      (accP.positions.lookup s = none →
        (trailStep tr accP k pos1).positions.lookup s = none) ∧
      ∃ Δ, (trailStep tr accP k pos1).events = accP.events ++ Δ ∧
        Δ.countP (isExitSubmitFor s) ≤ (if k = s then 1 else 0) ∧
        Event.priceUpdate s ∉ Δ ∧
        (Event.positionRemoved s ∈ Δ →
          (trailStep tr accP k pos1).positions.lookup s = none) := by
    obtain ⟨a, b, Δ, hev, hcount, hpu, hpr⟩ := trailStep_c1 tr accP k pos1 s hKP
    refine ⟨a, b, Δ, hev, ?_, hpu, fun h => absurd h hpr⟩
    rw [hcount]
    exact Nat.zero_le _
  cases hc1 : exitCondSL pos1 with
  | true =>
      rw [if_pos rfl]
      exact hexit
  | false =>
      rw [if_neg Bool.false_ne_true]
      cases hc2 : exitCondTP pos1 with
      | true =>
          rw [if_pos rfl]
          exact hexit
      | false =>
          rw [if_neg Bool.false_ne_true]
          exact htrail

/-- C1 facts about one full iteration of the tick-processing loop: keys stay
well-formed, an absent symbol stays absent, the iteration appends at most one
exit submission for `s` (and only when it is `s`'s own iteration), a
price-update event for `s` can only come from `s`'s own iteration, and a
removal notification for `s` certifies `s` is absent afterwards. -/
lemma stepKey_c1 (tr : Trader) (tbt : Nat → Option Tick) (acc : BatchAcc)
    (k s : Sym) (hK : KeysOk acc.positions) :
    KeysOk (stepKey tr tbt acc k).positions ∧
    (acc.positions.lookup s = none →
      (stepKey tr tbt acc k).positions.lookup s = none) ∧
    ∃ Δ, (stepKey tr tbt acc k).events = acc.events ++ Δ ∧
      Δ.countP (isExitSubmitFor s) ≤ (if k = s then 1 else 0) ∧
      (Event.priceUpdate s ∈ Δ → k = s) ∧
      (Event.positionRemoved s ∈ Δ →
        (stepKey tr tbt acc k).positions.lookup s = none) := by
  by_cases hm : acc.sizeMutated = true
  · simp only [stepKey, hm, if_true]
    exact ⟨hK, fun h => h, [], (List.append_nil _).symm, by simp, by simp, by simp⟩
  · have hm' : acc.sizeMutated = false := by
      cases h : acc.sizeMutated
      · rfl
      · exact absurd h hm
    rcases hlk : acc.positions.lookup k with _ | pos0
    · simp only [stepKey, hm', Bool.false_eq_true, if_false, hlk]
      exact ⟨hK, fun h => h, [], (List.append_nil _).symm, by simp, by simp, by simp⟩
    · simp only [stepKey, hm', Bool.false_eq_true, if_false, hlk]
      have hts0 : pos0.tradingsymbol = k := hK.2 (k, pos0) (lookup_mem hlk)
      rcases priceStep_acc_cases tbt acc k pos0 with ⟨hp1, hp2⟩ | ⟨l, hp1, hp2⟩
      · rw [hp1, hp2]
        obtain ⟨a, b, Δ, hev, hcount, hpu, hpr⟩ :=
          stepKeyBranches_c1 tr acc k s pos0 hK hts0
        exact ⟨a, b, Δ, hev, hcount, fun h => absurd h hpu, hpr⟩
      · rw [hp1, hp2]
        have hts1 : (pos0.update_pnl l).tradingsymbol = k := by
          rw [update_pnl_tradingsymbol, hts0]
        have hKP : KeysOk (setKey acc.positions k (pos0.update_pnl l)) :=
          keysOk_setKey hK hts1
        obtain ⟨a, b, Δ, hev, hcount, hpu, hpr⟩ :=
          stepKeyBranches_c1 tr
            { acc with positions := setKey acc.positions k (pos0.update_pnl l),
                       events := acc.events ++ [Event.priceUpdate k],
                       updated := true }
            k s (pos0.update_pnl l) hKP hts1
        refine ⟨a, fun h => b (lookup_none_setKey h),
          Event.priceUpdate k :: Δ, ?_, ?_, ?_, ?_⟩
        · rw [hev]
          simp
        · rw [List.countP_cons]
          simpa using hcount
        · intro h
          rcases List.mem_cons.mp h with he | hm2
          · injection he with he'
            exact he'.symm
          · exact absurd hm2 hpu
        · intro h
          rcases List.mem_cons.mp h with he | hm2
          · exact Event.noConfusion he
          · exact hpr hm2

/-- C1 facts composed over the whole key iteration of one batch: the trace
grows by at most one exit submission per occurrence of `s` in the key list, a
price-update event for `s` requires `s` among the iterated keys, and a
removal notification for `s` certifies `s` is absent from the final dict. -/
lemma foldl_stepKey_c1 (tr : Trader) (tbt : Nat → Option Tick) (s : Sym) :
    ∀ (keys : List Sym) (acc : BatchAcc), KeysOk acc.positions →
    KeysOk (keys.foldl (stepKey tr tbt) acc).positions ∧
    (acc.positions.lookup s = none →
      (keys.foldl (stepKey tr tbt) acc).positions.lookup s = none) ∧
    ∃ Δ, (keys.foldl (stepKey tr tbt) acc).events = acc.events ++ Δ ∧
      Δ.countP (isExitSubmitFor s) ≤ keys.countP (fun x => x == s) ∧
      (Event.priceUpdate s ∈ Δ → s ∈ keys) ∧
      (Event.positionRemoved s ∈ Δ →
        (keys.foldl (stepKey tr tbt) acc).positions.lookup s = none) := by
  intro keys
  induction keys with
  | nil =>
      intro acc hK
      exact ⟨hK, fun h => h, [], (List.append_nil _).symm, by simp, by simp, by simp⟩
  | cons k ks ih =>
      intro acc hK
      rw [List.foldl_cons]
      obtain ⟨a1, b1, Δ1, hev1, hc1, hpu1, hpr1⟩ := stepKey_c1 tr tbt acc k s hK
      obtain ⟨a2, b2, Δ2, hev2, hc2, hpu2, hpr2⟩ := ih (stepKey tr tbt acc k) a1
      refine ⟨a2, fun h => b2 (b1 h), Δ1 ++ Δ2, ?_, ?_, ?_, ?_⟩
      · rw [hev2, hev1, List.append_assoc]
      · rw [List.countP_append, List.countP_cons]
        by_cases h : k = s
        · rw [if_pos h] at hc1
          have hb : (k == s) = true := beq_iff_eq.mpr h
          rw [hb, if_pos rfl]
          omega
        · rw [if_neg h] at hc1
          have hb : (k == s) = false := beq_eq_false_iff_ne.mpr h
          rw [hb, if_neg Bool.false_ne_true]
          omega
      · intro h
        rcases List.mem_append.mp h with h1 | h2
        · exact List.mem_cons.mpr (Or.inl (hpu1 h1).symm)
        · exact List.mem_cons.mpr (Or.inr (hpu2 h2))
      · intro h
        rcases List.mem_append.mp h with h1 | h2
        · exact b2 (hpr1 h1)
        · exact hpr2 h2

lemma withPositions_positions (st : PMState) (X : List (Sym × Position)) :
    ({ st with positions := X } : PMState).positions = X := rfl

lemma updateBatch_fst (tr : Trader) (st : PMState) (ticks : List Tick) :
    (updateBatch tr st ticks).1
      = { st with positions :=
          (List.foldl (stepKey tr (ticksByToken ticks))
            { positions := st.positions, events := [], updated := false,
              sizeMutated := false }
            (st.positions.map Prod.fst)).positions } := rfl

lemma updateBatch_snd (tr : Trader) (st : PMState) (ticks : List Tick) :
    (updateBatch tr st ticks).2
      = (if (List.foldl (stepKey tr (ticksByToken ticks))
              { positions := st.positions, events := [], updated := false,
                sizeMutated := false }
              (st.positions.map Prod.fst)).sizeMutated then
          (List.foldl (stepKey tr (ticksByToken ticks))
            { positions := st.positions, events := [], updated := false,
              sizeMutated := false }
            (st.positions.map Prod.fst)).events
        else
          (List.foldl (stepKey tr (ticksByToken ticks))
            { positions := st.positions, events := [], updated := false,
              sizeMutated := false }
            (st.positions.map Prod.fst)).events
          ++ (if (List.foldl (stepKey tr (ticksByToken ticks))
                  { positions := st.positions, events := [], updated := false,
                    sizeMutated := false }
                  (st.positions.map Prod.fst)).updated then
                [Event.positionsUpdated]
              else [])) := rfl

/-- C1 facts about one whole tick batch on a well-formed dict: keys stay
well-formed; the batch emits at most one exit submission for any symbol; a
removal notification for `s` means `s` is absent from the resulting dict; and
if `s` was absent before the batch, it is absent after it and the batch trace
holds no exit submission and no price-update event for `s`. -/
lemma updateBatch_c1 (tr : Trader) (st : PMState) (ticks : List Tick) (s : Sym)
    (hK : KeysOk st.positions) :
    KeysOk (updateBatch tr st ticks).1.positions ∧
    (updateBatch tr st ticks).2.countP (isExitSubmitFor s) ≤ 1 ∧
    (Event.positionRemoved s ∈ (updateBatch tr st ticks).2 →
      (updateBatch tr st ticks).1.positions.lookup s = none) ∧
    (st.positions.lookup s = none →
      (updateBatch tr st ticks).1.positions.lookup s = none ∧
      ∀ e ∈ (updateBatch tr st ticks).2,
        isExitSubmitFor s e = false ∧ e ≠ Event.priceUpdate s) := by
  obtain ⟨a, b, Δ, hev, hc, hpu, hpr⟩ :=
    foldl_stepKey_c1 tr (ticksByToken ticks) s (st.positions.map Prod.fst)
      { positions := st.positions, events := [], updated := false,
        sizeMutated := false } hK
  rw [updateBatch_fst, updateBatch_snd, withPositions_positions]
  have hev' : (List.foldl (stepKey tr (ticksByToken ticks))
      { positions := st.positions, events := [], updated := false,
        sizeMutated := false }
      (st.positions.map Prod.fst)).events = Δ := by
    simpa using hev
  have hkc : Δ.countP (isExitSubmitFor s) ≤ 1 := by
    refine le_trans hc ?_
    exact List.nodup_iff_count_le_one.mp hK.1 s
  have hclean : st.positions.lookup s = none →
      ∀ e ∈ Δ, isExitSubmitFor s e = false ∧ e ≠ Event.priceUpdate s := by
    intro habs e he
    have hnotk : s ∉ st.positions.map Prod.fst := by
      intro hmem
      rcases List.mem_map.mp hmem with ⟨sp, hsp, heq⟩
      exact keys_ne_of_lookup_none habs sp hsp heq
    constructor
    · have hz : (st.positions.map Prod.fst).countP (fun x => x == s) = 0 := by
        rw [List.countP_eq_zero]
        intro x hx hxx
        exact hnotk (beq_iff_eq.mp hxx ▸ hx)
      have hΔz : Δ.countP (isExitSubmitFor s) = 0 :=
        Nat.le_zero.mp (hz ▸ hc)
      exact Bool.eq_false_iff.mpr (List.countP_eq_zero.mp hΔz e he)
    · intro heq
      rw [heq] at he
      exact hnotk (hpu he)
  rw [hev']
  cases hsm : (List.foldl (stepKey tr (ticksByToken ticks))
      { positions := st.positions, events := [], updated := false,
        sizeMutated := false }
      (st.positions.map Prod.fst)).sizeMutated with
  | true =>
      rw [if_pos rfl]
      exact ⟨a, hkc, hpr, fun habs => ⟨b habs, hclean habs⟩⟩
  | false =>
      rw [if_neg Bool.false_ne_true]
      cases hup : (List.foldl (stepKey tr (ticksByToken ticks))
          { positions := st.positions, events := [], updated := false,
            sizeMutated := false }
          (st.positions.map Prod.fst)).updated with
      | false =>
          rw [if_neg Bool.false_ne_true, List.append_nil]
          exact ⟨a, hkc, hpr, fun habs => ⟨b habs, hclean habs⟩⟩
      | true =>
          rw [if_pos rfl]
          refine ⟨a, ?_, ?_, fun habs => ⟨b habs, ?_⟩⟩
          · rw [List.countP_append]
            simpa using hkc
          · intro h
            rcases List.mem_append.mp h with h1 | h2
            · exact hpr h1
            · simp at h2
          · intro e he
            rcases List.mem_append.mp he with h1 | h2
            · exact hclean habs e h1
            · rw [List.mem_singleton.mp h2]
              exact ⟨rfl, fun hcon => Event.noConfusion hcon⟩

lemma runBatches_shift (batches : List (Trader × List Tick)) :
    ∀ (st : PMState) (ev : List Event),
    batches.foldl
      (fun acc b => ((updateBatch b.1 acc.1 b.2).1, acc.2 ++ (updateBatch b.1 acc.1 b.2).2))
      (st, ev)
      = ((batches.foldl
            (fun acc b => ((updateBatch b.1 acc.1 b.2).1, acc.2 ++ (updateBatch b.1 acc.1 b.2).2))
            (st, [])).1,
         ev ++ (batches.foldl
            (fun acc b => ((updateBatch b.1 acc.1 b.2).1, acc.2 ++ (updateBatch b.1 acc.1 b.2).2))
            (st, [])).2) := by
  induction batches with
  | nil =>
      intro st ev
      simp
  | cons b bs ih =>
      intro st ev
      simp only [List.foldl_cons, List.nil_append]
      have h1 := ih (updateBatch b.1 st b.2).1 (ev ++ (updateBatch b.1 st b.2).2)
      have h2 := ih (updateBatch b.1 st b.2).1 (updateBatch b.1 st b.2).2
      rw [h1, h2]
      simp [List.append_assoc]

lemma runBatches_cons (st : PMState) (b : Trader × List Tick)
    (bs : List (Trader × List Tick)) :
    runBatches st (b :: bs)
      = ((runBatches (updateBatch b.1 st b.2).1 bs).1,
         (updateBatch b.1 st b.2).2
           ++ (runBatches (updateBatch b.1 st b.2).1 bs).2) := by
  simp only [runBatches, List.foldl_cons, List.nil_append]
  exact runBatches_shift bs (updateBatch b.1 st b.2).1 (updateBatch b.1 st b.2).2

/-- Once a symbol is absent from the dict, any further sequence of tick
batches keeps it absent, and the combined trace of those batches holds no
exit submission for it and no price-update event for it. -/
lemma runBatches_c1_absent (batches : List (Trader × List Tick)) :
    ∀ (st : PMState) (s : Sym), KeysOk st.positions →
    st.positions.lookup s = none →
    KeysOk (runBatches st batches).1.positions ∧
    (runBatches st batches).1.positions.lookup s = none ∧
    ∀ e ∈ (runBatches st batches).2,
      isExitSubmitFor s e = false ∧ e ≠ Event.priceUpdate s := by
  induction batches with
  | nil =>
      intro st s hK habs
      exact ⟨hK, habs, by simp [runBatches]⟩
  | cons b bs ih =>
      intro st s hK habs
      rw [runBatches_cons]
      obtain ⟨a, _, _, habs'⟩ := updateBatch_c1 b.1 st b.2 s hK
      obtain ⟨habs1, hclean1⟩ := habs' habs
      obtain ⟨a2, habs2, hclean2⟩ := ih (updateBatch b.1 st b.2).1 s a habs1
      refine ⟨a2, habs2, ?_⟩
      intro e he
      rcases List.mem_append.mp he with h1 | h2
      · exact hclean1 e h1
      · exact hclean2 e h2

/-- A one-position store whose stop-loss exit condition holds: the batch
opens its trace with the market-sell submission, and if the submission
raises, the state — in particular the position — is left untouched, so the
next batch triggers the same submission again. -/
lemma single_exit_batch (tr : Trader) (s : Sym) (pos : Position)
    (po : List RawOrder) (r : ℚ) (rp : Bool)
    (hts : pos.tradingsymbol = s)
    (hsl : pos.stop_loss_price.isSome = true)
    (hq : 0 < pos.quantity)
    (hle : pos.ltp ≤ pos.stop_loss_price.getD 0) :
    (∃ E, (updateBatch tr
        { positions := [(s, pos)], pending_orders := po,
          realized_day_pnl := r, refresh_in_progress := rp } []).2
      = Event.placeOrderCall (exitReq pos) :: E) ∧
    (∀ msg, tr.placeOrder (exitReq pos) = Except.error msg →
      updateBatch tr
          { positions := [(s, pos)], pending_orders := po,
            realized_day_pnl := r, refresh_in_progress := rp } []
        = ({ positions := [(s, pos)], pending_orders := po,
             realized_day_pnl := r, refresh_in_progress := rp },
           [Event.placeOrderCall (exitReq pos)])) := by
  have hlk : List.lookup s [(s, pos)] = some pos := by simp [List.lookup]
  have e1 : exitCondSL pos = true := by
    simp [exitCondSL, hsl, hq, hle]
  constructor
  · rcases hpo : tr.placeOrder (exitReq pos) with msg | oid
    · refine ⟨[], ?_⟩
      simp [updateBatch, stepKey, priceStep, ticksByToken, exitStep,
        exitPosition, hlk, e1, hpo]
    · refine ⟨(cancelPendingLegs pos).2
          ++ [Event.positionRemoved s, Event.positionsUpdated], ?_⟩
      simp [updateBatch, stepKey, priceStep, ticksByToken, exitStep,
        exitPosition, removePositionList, hlk, hts, e1, hpo]
  · intro msg hpo
    simp [updateBatch, stepKey, priceStep, ticksByToken, exitStep,
      exitPosition, hlk, e1, hpo]

/-- The C1 scenario position: long 50 at 100 with stop-loss 95, now marked
at 94, so the stop-loss exit condition holds. -/
def posExit : Position :=
  { basePos with ltp := 94, stop_loss_price := some 95 }

def stExit : PMState :=
  { positions := [("X", posExit)], pending_orders := [], realized_day_pnl := 0,
    refresh_in_progress := false }

/-- **C1** (exit exclusivity): the "exit in progress" discipline of
`update_pnl_from_market_data` / `exit_position`, in its observable content
over the embedding.  (i) One tick batch submits at most one market-sell exit
per symbol, and a `position_removed` notification for a symbol means the
symbol is absent from the resulting store; (ii) once a symbol is absent,
every subsequent sequence of tick batches keeps it absent and performs no
price/P&L mutation of it and no further exit submission for it; (iii) the
exit trigger submits the market sell first, and on submission failure the
position is left in place unchanged, so the next tick batch retries the
same submission. -/
theorem c1_exit_exclusivity :
    (∀ (tr : Trader) (st : PMState) (ticks : List Tick) (s : Sym),
      KeysOk st.positions →
      (updateBatch tr st ticks).2.countP (isExitSubmitFor s) ≤ 1 ∧
      (Event.positionRemoved s ∈ (updateBatch tr st ticks).2 →
        (updateBatch tr st ticks).1.positions.lookup s = none) ∧
      KeysOk (updateBatch tr st ticks).1.positions) ∧
    (∀ (st : PMState) (batches : List (Trader × List Tick)) (s : Sym),
      KeysOk st.positions → st.positions.lookup s = none →
      (runBatches st batches).1.positions.lookup s = none ∧
      ∀ e ∈ (runBatches st batches).2,
        isExitSubmitFor s e = false ∧ e ≠ Event.priceUpdate s) ∧
    (∀ (tr : Trader) (s : Sym) (pos : Position) (po : List RawOrder)
        (r : ℚ) (rp : Bool),
      pos.tradingsymbol = s → pos.stop_loss_price.isSome = true →
      0 < pos.quantity → pos.ltp ≤ pos.stop_loss_price.getD 0 →
      (∃ E, (updateBatch tr
          { positions := [(s, pos)], pending_orders := po,
            realized_day_pnl := r, refresh_in_progress := rp } []).2
        = Event.placeOrderCall (exitReq pos) :: E) ∧
      isExitSubmitFor s (Event.placeOrderCall (exitReq pos)) = true ∧
      (∀ msg, tr.placeOrder (exitReq pos) = Except.error msg →
        updateBatch tr
            { positions := [(s, pos)], pending_orders := po,
              realized_day_pnl := r, refresh_in_progress := rp } []
          = ({ positions := [(s, pos)], pending_orders := po,
               realized_day_pnl := r, refresh_in_progress := rp },
             [Event.placeOrderCall (exitReq pos)]))) := by
  refine ⟨?_, ?_, ?_⟩
  · intro tr st ticks s hK
    obtain ⟨a, b, c, _⟩ := updateBatch_c1 tr st ticks s hK
    exact ⟨b, c, a⟩
  · intro st batches s hK habs
    obtain ⟨_, h2, h3⟩ := runBatches_c1_absent batches st s hK habs
    exact ⟨h2, h3⟩
  · intro tr s pos po r rp hts hsl hq hle
    obtain ⟨h1, h2⟩ := single_exit_batch tr s pos po r rp hts hsl hq hle
    refine ⟨h1, ?_, h2⟩
    simp [hts]

/-- **C1 witness**: on the concrete one-position store `stExit` (long 50 at
100, stop 95, marked 94) a batch submits at most one exit for `X`; an empty
store stays empty over a batch sequence; and with a rejecting broker the
batch leaves the store untouched with exactly the market-sell submission in
its trace. -/
theorem c1_exit_exclusivity_witness :
    ((updateBatch traderOk stExit []).2.countP (isExitSubmitFor "X") ≤ 1) ∧
    ((runBatches
        { positions := [], pending_orders := [], realized_day_pnl := 0,
          refresh_in_progress := false }
        [(traderOk, [])]).1.positions.lookup "X" = none) ∧
    updateBatch traderReject stExit []
      = (stExit, [Event.placeOrderCall (exitReq posExit)]) := by
  have hK : KeysOk stExit.positions := by
    constructor
    · simp [stExit]
    · intro sp hsp
      rw [List.mem_singleton.mp hsp]
      rfl
  have hKe : KeysOk ([] : List (Sym × Position)) := ⟨List.nodup_nil, by simp⟩
  refine ⟨?_, ?_, ?_⟩
  · exact (c1_exit_exclusivity.1 traderOk stExit [] "X" hK).1
  · exact (c1_exit_exclusivity.2.1
      { positions := [], pending_orders := [], realized_day_pnl := 0,
        refresh_in_progress := false }
      [(traderOk, [])] "X" hKe rfl).1
  · exact (c1_exit_exclusivity.2.2 traderReject "X" posExit [] 0 false rfl rfl
      (by decide) (by norm_num [posExit, basePos])).2.2 "OrderException" rfl

end OptionsTrading
